import Mathlib

/-!
Verification development for the Webflow-to-React converter
(`src/scripts/converter.js`).

The JavaScript source is shallowly embedded: every JS function of the
componentization core becomes an executable Lean definition translated
line by line from the source.  JS `Map`/`Set`/object values become
insertion-ordered association lists, node identity (JS reference
equality) becomes an explicit `id : Nat` field on nodes (the trees the
parser produces give every node a distinct identity), and the two
external collaborators used by the core — `crypto.createHash('md5')`
and dom-serializer's `render` — are modelled respectively as a function
parameter `md5f : String → String` and as a small deterministic XML
serializer (`renderXmlNode`); the claims under study depend only on
those collaborators being pure functions of their input.  File-system
writes performed during rendering are captured in an explicit write
log; `console.warn` calls in a warning log.
-/

set_option maxHeartbeats 1000000

namespace W2R

/-! ## JS string primitives

The JS string operations used by the source (`trim`, `split(/\s+/)`,
`split(':')`, `toLowerCase`, `join`, regex replaces) are implemented
over `List Char` so that everything reduces in the kernel. -/

/-- JS whitespace test (`\s`), restricted to the whitespace characters
that can occur in the inputs. -/
def chIsWs (c : Char) : Bool := c.isWhitespace

/-- JS `String.prototype.trim`. -/
def jsTrim (s : String) : String :=
  (((s.toList.dropWhile chIsWs).reverse.dropWhile chIsWs).reverse).asString

/-- Helper for splitting on runs of characters satisfying `p`.
`inRun` records whether the previous character was part of a
separator run.  Mirrors JS `split(/<p>+/)` semantics, including the
empty leading/trailing pieces JS produces. -/
def splitRunsAux (p : Char → Bool) : List Char → Bool → List Char → List String
  | [], _, cur => [cur.reverse.asString]
  | c :: rest, inRun, cur =>
    if p c then
      if inRun then splitRunsAux p rest true cur
      else cur.reverse.asString :: splitRunsAux p rest true []
    else splitRunsAux p rest false (c :: cur)

/-- JS `s.split(/\s+/)`. -/
def jsSplitWs (s : String) : List String := splitRunsAux chIsWs s.toList false []

/-- JS `s.split(sep)` for a single-character separator string. -/
def jsSplitCharAux (sep : Char) : List Char → List Char → List String
  | [], cur => [cur.reverse.asString]
  | c :: rest, cur =>
    if c = sep then cur.reverse.asString :: jsSplitCharAux sep rest []
    else jsSplitCharAux sep rest (c :: cur)

def jsSplitChar (sep : Char) (s : String) : List String := jsSplitCharAux sep s.toList []

/-- JS `Array.prototype.join(sep)`. -/
def myJoin (sep : String) : List String → String
  | [] => ""
  | [x] => x
  | x :: xs => x ++ sep ++ myJoin sep xs

/-- JS `s.toLowerCase()` (ASCII, which covers the tag/attribute names
and identifiers in scope). -/
def lowerStr (s : String) : String := (s.toList.map Char.toLower).asString

/-- Strict lexicographic comparison of char lists by code point, the
order JS `Array.prototype.sort()` uses on strings. -/
def chLtLex : List Char → List Char → Bool
  | [], [] => false
  | [], _ :: _ => true
  | _ :: _, [] => false
  | a :: as, b :: bs => if a = b then chLtLex as bs else a.toNat < b.toNat

def strLt (a b : String) : Bool := chLtLex a.toList b.toList

/-- Stable insertion of `x` after every element strictly below it. -/
def insertByLt {α : Type} (lt : α → α → Bool) (x : α) : List α → List α
  | [] => [x]
  | y :: ys => if lt y x then y :: insertByLt lt x ys else x :: y :: ys

/-- Stable ascending sort (models JS `Array.prototype.sort`, which is
stable). -/
def sortByLt {α : Type} (lt : α → α → Bool) (l : List α) : List α :=
  l.foldr (insertByLt lt) []

/-- Membership of a string in a string list via `==`, as JS
`Array.prototype.includes` / `Set.has`. -/
def strMem (l : List String) (s : String) : Bool := l.contains s

/-- JS `Set.add` (insertion-ordered, deduplicating). -/
def addUnique (l : List String) (s : String) : List String :=
  if strMem l s then l else l ++ [s]

def isLowerAZ (c : Char) : Bool := 97 ≤ c.toNat ∧ c.toNat ≤ 122
def isUpperAZ (c : Char) : Bool := 65 ≤ c.toNat ∧ c.toNat ≤ 90
def isDigit09 (c : Char) : Bool := 48 ≤ c.toNat ∧ c.toNat ≤ 57
def isAlnumJS (c : Char) : Bool := isLowerAZ c || isUpperAZ c || isDigit09 c

/-- `kebabToCamelCase` from the source: replace every dash followed by a
lowercase letter with that letter uppercased (regex dash,
group a-z, global). -/
def kebabAux : List Char → List Char
  | [] => []
  | '-' :: c :: rest =>
    if isLowerAZ c then Char.toUpper c :: kebabAux rest
    else '-' :: kebabAux (c :: rest)
  | c :: rest => c :: kebabAux rest

def kebabToCamelCase (s : String) : String := (kebabAux s.toList).asString

def isSepC (c : Char) : Bool := c = '-' || c = '_' || c = ' '

/-- First regex pass of `toCamelCase`:
`str.replace(/[-_ ]+([a-zA-Z0-9])/g, (_, ch) => ch.toUpperCase())`.
`pend` holds the separator run read so far (reversed). -/
def tcAux : List Char → List Char → List Char
  | pend, [] => pend.reverse
  | pend, c :: rest =>
    if isSepC c then tcAux (c :: pend) rest
    else if pend.isEmpty then c :: tcAux [] rest
    else if isAlnumJS c then Char.toUpper c :: tcAux [] rest
    else pend.reverse ++ c :: tcAux [] rest

/-- Second pass of `toCamelCase`: `replace(/^[A-Z]/, m => m.toLowerCase())`. -/
def lowerFirst : List Char → List Char
  | [] => []
  | c :: rest => if isUpperAZ c then Char.toLower c :: rest else c :: rest

def toCamelCase (s : String) : String := (lowerFirst (tcAux [] s.toList)).asString

/-- `toPascalCase` from the source.  Its `null`/`undefined` branch is
unreachable here because every call site passes a string. -/
def toPascalCase (s : String) : String :=
  if jsTrim s = "" then "Unnamed"
  else
    let cleaned := (s.toList.map Char.toLower).filter (fun c => isLowerAZ c || isDigit09 c)
    match cleaned with
    | c :: rest => (Char.toUpper c :: rest).asString
    | [] =>
      let kept := s.toList.filter (fun c => isAlnumJS c || c = '_' || c = '-' || chIsWs c)
      let words := (splitRunsAux (fun c => chIsWs c || c = '_' || c = '-') kept false []).filter
        (fun w => w ≠ "")
      match words with
      | [] => "UnnamedComponent"
      | _ :: _ =>
        myJoin "" (words.map (fun w =>
          match w.toList with
          | [] => ""
          | c :: rest => (Char.toUpper c :: rest.map Char.toLower).asString))

/-! ## Association lists (JS `Map`s and objects)

JS `Map`s and plain objects preserve key insertion order; `set` on an
existing key updates in place. -/

def alGet {α : Type} (al : List (String × α)) (k : String) : Option α :=
  (al.find? (fun kv => kv.1 == k)).map (·.2)

def alHas {α : Type} (al : List (String × α)) (k : String) : Bool := (alGet al k).isSome

def alSet {α : Type} : List (String × α) → String → α → List (String × α)
  | [], k, v => [(k, v)]
  | (k', v') :: rest, k, v =>
    if k' == k then (k, v) :: rest else (k', v') :: alSet rest k v

def alGetN {α : Type} (al : List (Nat × α)) (k : Nat) : Option α :=
  (al.find? (fun kv => kv.1 == k)).map (·.2)

def alHasN {α : Type} (al : List (Nat × α)) (k : Nat) : Bool := (alGetN al k).isSome

def alSetN {α : Type} : List (Nat × α) → Nat → α → List (Nat × α)
  | [], k, v => [(k, v)]
  | (k', v') :: rest, k, v =>
    if k' == k then (k, v) :: rest else (k', v') :: alSetN rest k v

/-- `styleStringToObject` from the source. -/
def styleStringToObject (s : String) : List (String × String) :=
  if s = "" then []
  else
    (jsSplitChar ';' s).foldl (fun st decl =>
      match jsSplitChar ':' decl with
      | prop :: v :: _ =>
        if prop ≠ "" ∧ v ≠ "" then alSet st (kebabToCamelCase (jsTrim prop)) (jsTrim v)
        else st
      | _ => st) []

/-! ## JSON string encoding (`JSON.stringify` on strings and small objects) -/

def jsonEscChar (c : Char) : List Char :=
  if c = '"' then ['\\', '"']
  else if c = '\\' then ['\\', '\\']
  else if c = '\n' then ['\\', 'n']
  else if c = '\t' then ['\\', 't']
  else if c = '\r' then ['\\', 'r']
  else [c]

def jsonQuote (s : String) : String :=
  ('"' :: (s.toList.map jsonEscChar).flatten ++ ['"']).asString

def jsonStringifyStrList (l : List String) : String :=
  "[" ++ myJoin "," (l.map jsonQuote) ++ "]"

def jsonStringifyObj (pairs : List (String × String)) : String :=
  "\x7b" ++ myJoin "," (pairs.map (fun kv => jsonQuote kv.1 ++ ":" ++ jsonQuote kv.2)) ++ "\x7d"

/-! ## Tree model

htmlparser2 nodes, as serialized by `script/index.js`.  The `id` field
models JS reference identity (the detector and registries compare
nodes with `===` / use them as `Map` keys); parser-produced trees give
every node a distinct id.  Non-element nodes carry `name = ""`,
`attribs = []`, `children = []`, matching the absence of those
properties in JS (indexing a missing property yields `undefined`,
which the embedding reproduces, see `jsGet`). -/

inductive NType where
  | text | comment | directive | script | style | tag
  | other (s : String)
deriving DecidableEq, BEq

inductive Node where
  | mk (id : Nat) (ntype : NType) (name : String)
       (attribs : List (String × String)) (data : String) (children : List Node)

def Node.id : Node → Nat
  | .mk i _ _ _ _ _ => i

def Node.ntype : Node → NType
  | .mk _ t _ _ _ _ => t

def Node.name : Node → String
  | .mk _ _ n _ _ _ => n

def Node.attribs : Node → List (String × String)
  | .mk _ _ _ a _ _ => a

def Node.data : Node → String
  | .mk _ _ _ _ d _ => d

def Node.children : Node → List Node
  | .mk _ _ _ _ _ c => c

/-- Convenience constructors for concrete test trees. -/
def elemN (i : Nat) (name : String) (attribs : List (String × String))
    (children : List Node) : Node :=
  .mk i .tag name attribs "" children

def textN (i : Nat) (d : String) : Node := .mk i .text "" [] d []

/-- JS property paths as stored in prop specs:
`['children', 3, 'attribs', 'href']`. -/
inductive PathElem where
  | str (s : String)
  | num (n : Nat)
deriving DecidableEq, BEq

/-- `path.join('.')` — JS stringifies the numeric components. -/
def pathToString (p : List PathElem) : String :=
  myJoin "." (p.map (fun e => match e with | .str s => s | .num n => Nat.repr n))

/-- The JS values a stored-path walk can reach. -/
inductive JSValue where
  | undef
  | str (s : String)
  | node (n : Node)
  | nodes (l : List Node)
  | attrs (l : List (String × String))

/-- One JS indexing step `v[p]`.  Unreachable combinations yield
`undef`, exactly as JS property access on a value lacking the key. -/
def jsGet (v : JSValue) (p : PathElem) : JSValue :=
  match v, p with
  | .node n, .str "children" => .nodes n.children
  | .node n, .str "attribs" => .attrs n.attribs
  | .nodes l, .num i =>
    match l.get? i with
    | some n => .node n
    | none => .undef
  | .attrs al, .str k =>
    match alGet al k with
    | some s => .str s
    | none => .undef
  | _, _ => .undef

def jsTruthy : JSValue → Bool
  | .undef => false
  | .str s => s ≠ ""
  | .node _ => true
  | .nodes _ => true
  | .attrs _ => true

/-- `path.forEach(p => { if (x) x = x[p]; })` — the walk used by the
call-site prop resolution (guarded by truthiness). -/
def walkTruthy (start : JSValue) (path : List PathElem) : JSValue :=
  path.foldl (fun v p => if jsTruthy v then jsGet v p else v) start

/-- `path.forEach(p => (x = x?.[p]))` — the walk used when locating a
text prop's parent element (guarded by nullishness). -/
def walkNullish (start : JSValue) (path : List PathElem) : JSValue :=
  path.foldl (fun v p => match v with | .undef => .undef | _ => jsGet v p) start

/-- `String(value)` on a walk result.  Only `str` values reach the
stringification sites in parser-produced runs. -/
def jsStringOf : JSValue → String
  | .undef => "undefined"
  | .str s => s
  | .node _ => "[object Object]"
  | .nodes _ => ""
  | .attrs _ => "[object Object]"

/-! ## Model of the external XML serializer

dom-serializer's `render(node, { xmlMode: true })`, specified only at
its interface boundary: a pure, deterministic function of the subtree.
The claims under study use only that property. -/

mutual

def renderXmlNode : Node → String
  | .mk _ t name attribs data children =>
    let inner := renderXmlList children
    match t with
    | .text => data
    | .comment => "<!--" ++ data ++ "-->"
    | .directive => "<" ++ data ++ ">"
    | .tag | .script | .style =>
      let attrsStr := (attribs.map (fun kv => " " ++ kv.1 ++ "=\"" ++ kv.2 ++ "\"")).foldl
        (· ++ ·) ""
      if children.isEmpty then "<" ++ name ++ attrsStr ++ "/>"
      else "<" ++ name ++ attrsStr ++ ">" ++ inner ++ "</" ++ name ++ ">"
    | .other _ => ""

def renderXmlList : List Node → String
  | [] => ""
  | c :: cs => renderXmlNode c ++ renderXmlList cs

end

/-! ## Structural signature (`getStructuralSignature`) -/

/-- `Object.keys(node.attribs || \x7b\x7d).sort().join(',')`. -/
def attrNamesJoined (attribs : List (String × String)) : String :=
  myJoin "," (sortByLt strLt (attribs.map (·.1)))

/-- The `_CLASS_…` block: present when the class attribute is truthy,
holding the whitespace-split, sorted, underscore-joined tokens. -/
def classBlockOf (attribs : List (String × String)) : String :=
  match alGet attribs "class" with
  | some cv =>
    if cv ≠ "" then "_CLASS_" ++ myJoin "_" (sortByLt strLt (jsSplitWs cv)) else ""
  | none => ""

/-- The element-branch signature string. -/
def elemSig (name : String) (attribs : List (String × String)) (childSigs : String) : String :=
  name ++ "[" ++ attrNamesJoined attribs ++ classBlockOf attribs ++ "](" ++ childSigs ++ ")"

mutual

def getStructuralSignature : Node → String
  | .mk _ t name attribs _ children =>
    match t with
    | .text => "text"
    | .comment => "comment"
    | .directive => "directive"
    | .tag | .script | .style => elemSig name attribs (sigList children)
    | .other s => "UNKNOWN_TYPE_" ++ s

/-- `children.map(getStructuralSignature).join('|')`. -/
def sigList : List Node → String
  | [] => ""
  | c :: cs =>
    getStructuralSignature c ++ (if cs.isEmpty then "" else "|" ++ sigList cs)

end

/-! ## Small helpers from the source -/

mutual

def findNodes (p : Node → Bool) : Node → List Node
  | n@(.mk _ _ _ _ _ children) =>
    (if p n then [n] else []) ++ findNodesL p children

def findNodesL (p : Node → Bool) : List Node → List Node
  | [] => []
  | c :: cs => findNodes p c ++ findNodesL p cs

end

mutual

def countNodes : Node → Nat
  | .mk _ _ _ _ _ children => 1 + countNodesL children

def countNodesL : List Node → Nat
  | [] => 0
  | c :: cs => countNodes c + countNodesL cs

end

/-- Prop kinds; the source uses the strings `'attribute'`,
`'textChild'`, `'svg'`, `'children'`. -/
inductive PType where
  | attr | textChild | svg | childrenKind
deriving DecidableEq, BEq

/-- One entry of a `propsSpec` object value: `{ type, path, values }`.
The `children` entry the source synthesizes has no `values` field; it
is modelled with `values = []` (never read). -/
structure PropSpecEntry where
  ptype : PType
  path : List PathElem
  values : List String
deriving BEq, DecidableEq

def isNodeAlreadyComponentPart {α : Type} (reg : List (Nat × α)) (n : Node) : Bool :=
  alHasN reg n.id

def isNodeEligibleForComponentization {α : Type} (reg : List (Nat × α)) (n : Node) : Bool :=
  n.ntype == .tag && !(isNodeAlreadyComponentPart reg n) && n.name ≠ "svg"

/-- `generatePropName`: starting from `base`, try `base`, `base1`,
`base2`, … and return the first name not in `existingProps`.  The JS
`while` loop always terminates because decimal representations are
injective (proved below); fuel `existing.length + 1` suffices. -/
def genAux (base : String) (existing : List String) : Nat → Nat → String
  | 0, count => base ++ Nat.repr count
  | fuel + 1, count =>
    let cand := base ++ Nat.repr count
    if strMem existing cand then genAux base existing fuel (count + 1) else cand

def generatePropName (base : String) (existing : List String) : String :=
  if strMem existing base then genAux base existing (existing.length + 1) 1 else base

/-- `generateComponentFingerprint`, with the md5 digest as the external
collaborator `md5f`. -/
def generateComponentFingerprint (md5f : String → String) (jsxBody : String)
    (propsSpec : List (String × PropSpecEntry)) : String :=
  md5f (jsxBody ++ "::PROPS::" ++ jsonStringifyStrList (sortByLt strLt (propsSpec.map (·.1))))

def listIsInfix (sub : List Char) : List Char → Bool
  | [] => sub.isEmpty
  | l@(_ :: rest) => sub.isPrefixOf l || listIsInfix sub rest

/-- JS `String.prototype.includes` (substring test). -/
def strIncludes (s sub : String) : Bool := listIsInfix sub.toList s.toList

/-- One candidate string of `guessTextRoleFromClassOrId`'s loop body. -/
def roleOfToken (s : String) : Option String :=
  if s = "" then none
  else
    let low := lowerStr s
    if strIncludes low "title" then some "title"
    else if strIncludes low "label" then some "label"
    else if strIncludes low "desc" then some "description"
    else if strIncludes low "header" then some "header"
    else if strIncludes low "footer" then some "footer"
    else if strIncludes low "button" then some "buttonText"
    else if strIncludes low "caption" then some "caption"
    else if strIncludes low "subtitle" then some "subtitle"
    else if strIncludes low "item" then some "itemText"
    else none

def firstRole : List String → Option String
  | [] => none
  | s :: rest =>
    match roleOfToken s with
    | some r => some r
    | none => firstRole rest

/-- `guessTextRoleFromClassOrId`: candidates are the `id` attribute
value followed by the whitespace-split class tokens; blank candidates
are skipped (`if (!str) continue`). -/
def guessTextRoleFromClassOrId (n : Node) : Option String :=
  let idCands := match alGet n.attribs "id" with | some i => [i] | none => []
  let classCands := match alGet n.attribs "class" with | some c => jsSplitWs c | none => []
  firstRole (idCands ++ classCands)

/-! ## Prop inference (`analyzeInstancesForProps`) -/

/- The `collectPaths` traversal, returned as the list of
`(path, value, type)` callbacks in emission order. -/

mutual

def collectPathsN (n : Node) (cur : List PathElem) :
    List (List PathElem × String × PType) :=
  match n with
  | .mk _ t name attribs _ children =>
    if t == .tag && name == "svg" then [(cur, renderXmlNode n, .svg)]
    else
      (attribs.map (fun kv => (cur ++ [.str "attribs", .str kv.1], kv.2, PType.attr)))
        ++ collectPathsC children cur 0

def collectPathsC : List Node → List PathElem → Nat → List (List PathElem × String × PType)
  | [], _, _ => []
  | c :: cs, cur, i =>
    (match c.ntype with
     | .text =>
       if jsTrim c.data ≠ "" then [(cur ++ [.str "children", .num i], jsTrim c.data, PType.textChild)]
       else []
     | .tag => collectPathsN c (cur ++ [.str "children", .num i])
     | _ => []) ++ collectPathsC cs cur (i + 1)

end

/-- The template-side map `templateValuesByPath` (keyed by
`path.join('.')`). -/
def templateMapOf (t : Node) : List (String × (String × PType)) :=
  (collectPathsN t []).foldl (fun m e => alSet m (pathToString e.1) (e.2.1, e.2.2)) []

/-- One entry of the `differingPaths` map. -/
structure DiffEntry where
  ptype : PType
  values : List String
  pathArray : List PathElem
deriving BEq, DecidableEq

/-- Record one differing callback into `differingPaths`: create the
entry on first sight (empty value set), then add the instance value
and, when the template has this path, the template value. -/
def dpAdd (dp : List (String × DiffEntry)) (pathStr : String) (ty : PType)
    (p : List PathElem) (v : String) (tv : Option String) : List (String × DiffEntry) :=
  match dp with
  | [] =>
    let vals := addUnique [] v
    let vals := match tv with | some x => addUnique vals x | none => vals
    [(pathStr, ⟨ty, vals, p⟩)]
  | (k, e) :: rest =>
    if k == pathStr then
      let vals := addUnique e.values v
      let vals := match tv with | some x => addUnique vals x | none => vals
      (k, { e with values := vals }) :: rest
    else (k, e) :: dpAdd rest pathStr ty p v tv

/-- One instance callback replayed against the template map. -/
def diffInnerStep (tm : List (String × (String × PType)))
    (dp : List (String × DiffEntry)) (e : List PathElem × String × PType) :
    List (String × DiffEntry) :=
  let ps := pathToString e.1
  match alGet tm ps with
  | none => dpAdd dp ps e.2.2 e.1 e.2.1 none
  | some (tv, _) =>
    if e.2.1 ≠ tv then dpAdd dp ps e.2.2 e.1 e.2.1 (some tv) else dp

/-- One instance's contribution (skipped when it *is* the template, by
reference). -/
def diffOuterStep (t : Node) (tm : List (String × (String × PType)))
    (dp : List (String × DiffEntry)) (inst : Node) : List (String × DiffEntry) :=
  if inst.id == t.id then dp
  else (collectPathsN inst []).foldl (diffInnerStep tm) dp

/-- The `differingPaths` accumulation: for every instance other than
the template itself (reference comparison), replay its `collectPaths`
callbacks against the template map. -/
def differingPathsOf (t : Node) (instances : List Node) : List (String × DiffEntry) :=
  instances.foldl (diffOuterStep t (templateMapOf t)) []

/-- Base-name selection for one differing path (the body of the
naming `forEach`), also threading `propCounter`. -/
def basePropNameOf (t : Node) (e : DiffEntry) (cnt : Nat) : String × Nat :=
  match e.ptype with
  | .svg => ("iconSrc", cnt)
  | .attr =>
    let attrKey := match e.pathArray.getLast? with | some (.str k) => k | _ => ""
    let jsxKey :=
      if attrKey = "class" then "className"
      else if attrKey = "for" then "htmlFor"
      else attrKey
    (kebabToCamelCase jsxKey, cnt)
  | .textChild =>
    let parentPath := e.pathArray.dropLast.dropLast
    let parent := walkNullish (.node t) parentPath
    let role := match parent with | .node pn => guessTextRoleFromClassOrId pn | _ => none
    (match role with
     | some r => (r, cnt)
     | none =>
       match parent with
       | .node pn =>
         if pn.name ≠ "" then (toCamelCase (pn.name ++ "Text"), cnt)
         else ("text" ++ Nat.repr cnt, cnt + 1)
       | _ => ("text" ++ Nat.repr cnt, cnt + 1))
  | .childrenKind => ("prop" ++ Nat.repr cnt, cnt + 1)

/-- The naming `forEach` over `differingPaths`, building the ordered
props spec. -/
def bpsStep (t : Node) (st : Nat × List String × List (String × PropSpecEntry))
    (kv : String × DiffEntry) : Nat × List String × List (String × PropSpecEntry) :=
  let final := generatePropName (basePropNameOf t kv.2 st.1).1 st.2.1
  ((basePropNameOf t kv.2 st.1).2, st.2.1 ++ [final],
    st.2.2 ++ [(final, ⟨kv.2.ptype, kv.2.pathArray, kv.2.values⟩)])

def buildPropsSpec (t : Node) (dp : List (String × DiffEntry)) :
    List (String × PropSpecEntry) :=
  (dp.foldl (bpsStep t) (0, [], [])).2.2

def childrenSigJoin (n : Node) : String := sigList n.children

/-- `analyzeInstancesForProps`. -/
def analyzeInstancesForProps (t : Node) (instances : List Node) :
    List (String × PropSpecEntry) :=
  let spec := buildPropsSpec t (differingPathsOf t instances)
  let tSig := childrenSigJoin t
  let differs := instances.any (fun i => childrenSigJoin i ≠ tSig)
  if differs && !(spec.any (fun kv => kv.2.ptype == .childrenKind)) then
    spec ++ [(generatePropName "children" (spec.map (·.1)),
              ⟨.childrenKind, [.str "children"], []⟩)]
  else spec

/-! ## Configuration and registries

`config.json` is external input (spec section 6); its componentization
fields become parameters.  Output directories are opaque strings;
`path.join` on the posix runner is modelled as slash concatenation. -/

structure Config where
  selfClosingTags : List String
  layoutIdentifiers : List String
  minChildrenForRepetition : Nat
  minRepetitionsForComponent : Nat
  svgsPublic : String
  svgsOutputDir : String
  componentsPath : String

structure CompInfo where
  name : String
  astNode : Node
  propsSpec : List (String × PropSpecEntry)

/-- `localComponentRegistry : Map<Node, CompInfo>` keyed by node
identity. -/
abbrev Registry := List (Nat × CompInfo)

/-- Result of rendering: the emitted text together with the log of
`fs.writeFile` calls (disk path, content) and `console.warn` lines the
rendering performed. -/
structure RenderOut where
  out : String
  writes : List (String × String)
  warns : List String

def roEmpty : RenderOut := ⟨"", [], []⟩

def roText (s : String) : RenderOut := ⟨s, [], []⟩

/-! ## Icon externalization helpers -/

def svgFilenameOf (md5f : String → String) (s : String) : String :=
  "icon-" ++ md5f s ++ ".svg"

def svgDiskPathOf (cfg : Config) (fn : String) : String := cfg.svgsOutputDir ++ "/" ++ fn

def publicSrcPathOf (cfg : Config) (fn : String) : String := "/" ++ cfg.svgsPublic ++ "/" ++ fn

/-- The one `fs.writeFile` shape rendering ever performs: the svg
serialization written to its content-addressed disk path. -/
def iconWrite (cfg : Config) (md5f : String → String) (s : String) : String × String :=
  (svgDiskPathOf cfg (svgFilenameOf md5f s), s)

def removeAttr (al : List (String × String)) (k : String) : List (String × String) :=
  al.filter (fun kv => kv.1 ≠ k)

/-- The in-place `viewbox` → `viewBox` normalization (applied when the
`viewbox` attribute is truthy).  JS object semantics: assignment to a
fresh `viewBox` key appends it, deletion removes `viewbox` from its
position. -/
def normalizeViewbox (n : Node) : Node :=
  match alGet n.attribs "viewbox" with
  | some v =>
    if v ≠ "" then
      let a1 :=
        if alHas n.attribs "viewBox" then removeAttr (alSet n.attribs "viewBox" v) "viewbox"
        else removeAttr n.attribs "viewbox" ++ [("viewBox", v)]
      .mk n.id n.ntype n.name a1 n.data n.children
    else n
  | none => n

/-- Best-effort alt text from an embedded `<title>` child. -/
def altTextOf (n : Node) : String :=
  match n.children.find? (fun c => c.ntype == .tag && c.name == "title") with
  | some titleNode =>
    match titleNode.children.get? 0 with
    | some c0 => if c0.ntype == .text then jsTrim c0.data else "icon"
    | none => "icon"
  | none => "icon"

/-! ## Output-text escaping -/

def escDoubleQuotes (s : String) : String :=
  ((s.toList.map (fun c => if c = '"' then ['\\', '"'] else [c])).flatten).asString

def apos : Char := Char.ofNat 39

def escSingleQuotes (s : String) : String :=
  ((s.toList.map (fun c => if c = apos then ['\\', apos] else [c])).flatten).asString

/-- First replace pass on text nodes: every open brace becomes the
5-character sequence brace, quote, brace, quote, close-brace. -/
def escBrace1 (l : List Char) : List Char :=
  (l.map (fun c => if c = '\x7b' then ['\x7b', '"', '\x7b', '"', '\x7d'] else [c])).flatten

/-- Second replace pass: every close brace (including ones introduced
by the first pass, exactly as the source's sequential `replace`s)
becomes brace, quote, close-brace, quote, close-brace. -/
def escBrace2 (l : List Char) : List Char :=
  (l.map (fun c => if c = '\x7d' then ['\x7b', '"', '\x7d', '"', '\x7d'] else [c])).flatten

def escapeTextJs (s : String) : String := (escBrace2 (escBrace1 s.toList)).asString

/-- Escape of the two-character close sequence inside comments. -/
def escCommentClose : List Char → List Char
  | [] => []
  | '*' :: '/' :: rest => '*' :: '\\' :: '/' :: escCommentClose rest
  | c :: rest => c :: escCommentClose rest

def escCommentStr (s : String) : String := (escCommentClose s.toList).asString

/-- Non-prop fallthrough of the text case. -/
def textFallback (isDef : Bool) (data : String) : String :=
  if jsTrim data = "" then
    if data.length > 0 && !isDef then data else ""
  else escapeTextJs data

/-! ## Call-site prop resolution (`instanceProps`) -/

def instancePropStep (cfg : Config) (md5f : String → String) (node : Node)
    (acc : List (String × JSValue) × List (String × String)) (kv : String × PropSpecEntry) :
    List (String × JSValue) × List (String × String) :=
  let sp := kv.2
  match sp.ptype with
  | .childrenKind => acc
  | .svg =>
    let w := walkTruthy (.node node) sp.path
    if jsTruthy w then
      match w with
      | .node svgN =>
        let s := renderXmlNode (normalizeViewbox svgN)
        (acc.1 ++ [(kv.1, .str (publicSrcPathOf cfg (svgFilenameOf md5f s)))],
         acc.2 ++ [iconWrite cfg md5f s])
      | _ =>
        -- a truthy non-node walk result cannot arise from parser trees
        (acc.1 ++ [(kv.1, .str "")], acc.2)
    else (acc.1 ++ [(kv.1, .str "")], acc.2)
  | .attr => (acc.1 ++ [(kv.1, walkTruthy (.node node) sp.path)], acc.2)
  | .textChild =>
    let w := walkTruthy (.node node) sp.path
    let tv := match w with | .node tn => jsTrim tn.data | _ => ""
    (acc.1 ++ [(kv.1, .str tv)], acc.2)

def instancePropsOf (cfg : Config) (md5f : String → String) (node : Node)
    (spec : List (String × PropSpecEntry)) :
    List (String × JSValue) × List (String × String) :=
  spec.foldl (instancePropStep cfg md5f node) ([], [])


/-- Assembly of the call-site props string.  The `boolean`/`number`
cases of the source are unreachable here: parser-produced attribute
values and the resolved prop values are strings (or `undefined`). -/
def propsStringOf (ip : List (String × JSValue)) : String :=
  ip.foldl (fun s kv =>
    match kv.2 with
    | .undef => s
    | v =>
      let jsxPropName := kebabToCamelCase kv.1
      if jsxPropName = "style" then
        match v with
        | .str sv => s ++ " style=\x7b" ++ jsonStringifyObj (styleStringToObject sv) ++ "\x7d"
        | _ => s ++ " " ++ jsxPropName ++ "=\x7b" ++ jsonQuote (jsStringOf v) ++ "\x7d"
      else s ++ " " ++ jsxPropName ++ "=\x7b" ++ jsonQuote (jsStringOf v) ++ "\x7d") ""

/-- The render result of the registered-reference branch, stated as a
standalone function of the registered component info (used to
characterize that branch in the theorems below).  Forward declaration
of the children render is avoided by taking it as an argument. -/
def refAssemble (name : String) (ip : List (String × JSValue))
    (ipWrites : List (String × String)) (kids : RenderOut) : RenderOut :=
  let ps := propsStringOf ip
  ⟨if jsTrim kids.out ≠ "" then
     "<" ++ name ++ ps ++ ">" ++ kids.out ++ "</" ++ name ++ ">"
   else "<" ++ name ++ ps ++ " />",
   ipWrites ++ kids.writes, kids.warns⟩

/-! ## Attribute rendering for element nodes -/

def strStartsWith (s pre : String) : Bool := pre.toList.isPrefixOf s.toList

def boolAttrNames : List String :=
  ["disabled", "checked", "selected", "required", "autoplay", "controls",
   "loop", "muted", "readonly", "open", "hidden"]

def renderOneAttr (isDef : Bool) (spec : List (String × PropSpecEntry))
    (nodePath : List PathElem) (k v : String) : String :=
  let jsxKey0 := kebabToCamelCase k
  let jsxKey := if jsxKey0 = "class" then "className"
                else if jsxKey0 = "for" then "htmlFor" else jsxKey0
  let renderName := if strStartsWith k "data-" || strStartsWith k "aria-" then k else jsxKey
  let propMatch :=
    if isDef then
      spec.find? (fun pkv =>
        pkv.2.ptype == PType.attr &&
        List.isPrefixOf pkv.2.path (nodePath ++ [.str "attribs", .str k]))
    else none
  match propMatch with
  | some pkv =>
    if jsxKey = "style" then
      " style=\x7b" ++ pkv.1 ++ " || " ++ jsonStringifyObj (styleStringToObject v) ++ "\x7d"
    else " " ++ renderName ++ "=\x7b" ++ pkv.1 ++ " || " ++ jsonQuote v ++ "\x7d"
  | none =>
    if jsxKey = "style" then " style=\x7b" ++ jsonStringifyObj (styleStringToObject v) ++ "\x7d"
    else if v = "" && strMem boolAttrNames renderName then " " ++ renderName
    else " " ++ renderName ++ "=\x7b" ++ jsonQuote v ++ "\x7d"

def renderAttrsString (isDef : Bool) (spec : List (String × PropSpecEntry))
    (nodePath : List PathElem) (attribs : List (String × String)) : String :=
  attribs.foldl (fun s kv => s ++ renderOneAttr isDef spec nodePath kv.1 kv.2) ""

/-! ## The recursive generator (`astNodeToJsx`) -/

mutual

def astNodeToJsx (cfg : Config) (md5f : String → String) (reg : Registry)
    (depth : Nat) (isDef : Bool) (spec : List (String × PropSpecEntry))
    (nodePath : List PathElem) (tmpl : Option Nat) : Node → RenderOut
  | node@(.mk nid t name _ data children) =>
    if alHasN reg nid && !(tmpl == some nid) then
      match alGetN reg nid with
      | some info =>
        let ipw := instancePropsOf cfg md5f node info.propsSpec
        let kids :=
          if alHas info.propsSpec "children" then
            refKids cfg md5f reg depth tmpl children
          else roEmpty
        refAssemble info.name ipw.1 ipw.2 kids
      | none => roEmpty
    else
      match t with
      | .text =>
        if isDef then
          match spec.find? (fun pkv =>
            pkv.2.ptype == PType.textChild &&
            pathToString pkv.2.path == pathToString nodePath) with
          | some pkv =>
            roText ("\x7b" ++ pkv.1 ++ " || " ++ String.mk [apos] ++
              escSingleQuotes (jsTrim data) ++ String.mk [apos] ++ "\x7d")
          | none => roText (textFallback isDef data)
        else roText (textFallback isDef data)
      | .comment => roText ("\x7b/*" ++ escCommentStr data ++ "*/\x7d")
      | .directive => roText ""
      | .script => roText ""
      | .style => roText ""
      | .tag =>
        let node1 := if name = "svg" then normalizeViewbox node else node
        let svgProp :=
          if isDef then
            spec.find? (fun pkv =>
              pkv.2.ptype == PType.svg &&
              pathToString pkv.2.path == pathToString nodePath)
          else none
        match svgProp with
        | some pkv =>
          roText ("<img src=\x7b" ++ pkv.1 ++ "\x7d alt=\"" ++
            escDoubleQuotes (altTextOf node1) ++ "\" />")
        | none =>
          let tagName := lowerStr node1.name
          if tagName = "svg" then
            let s := renderXmlNode node1
            ⟨"<img src=\"" ++ publicSrcPathOf cfg (svgFilenameOf md5f s) ++ "\" alt=\"" ++
               escDoubleQuotes (altTextOf node1) ++ "\" />",
             [iconWrite cfg md5f s], []⟩
          else
            let attrsStr := renderAttrsString isDef spec nodePath node1.attribs
            if strMem cfg.selfClosingTags tagName then
              roText ("<" ++ tagName ++ attrsStr ++ " />")
            else
              let kids :=
                if isDef && (match alGet spec "children" with
                             | some ce => ce.ptype == PType.childrenKind
                             | none => false) then
                  roText "\x7bchildren\x7d"
                else renderKidsIdx cfg md5f reg depth isDef spec nodePath tmpl children 0
              ⟨"<" ++ tagName ++ attrsStr ++ ">" ++ kids.out ++ "</" ++ tagName ++ ">",
               kids.writes, kids.warns⟩
      | .other s =>
        ⟨"", [], ["Unhandled AST node type: " ++ s ++ " at path " ++ pathToString nodePath]⟩

def renderKidsIdx (cfg : Config) (md5f : String → String) (reg : Registry)
    (depth : Nat) (isDef : Bool) (spec : List (String × PropSpecEntry))
    (nodePath : List PathElem) (tmpl : Option Nat) : List Node → Nat → RenderOut
  | [], _ => roEmpty
  | c :: cs, i =>
    let r := astNodeToJsx cfg md5f reg (depth + 1) isDef spec
      (nodePath ++ [.str "children", .num i]) tmpl c
    let rest := renderKidsIdx cfg md5f reg depth isDef spec nodePath tmpl cs (i + 1)
    ⟨r.out ++ rest.out, r.writes ++ rest.writes, r.warns ++ rest.warns⟩

def refKids (cfg : Config) (md5f : String → String) (reg : Registry)
    (depth : Nat) (tmpl : Option Nat) : List Node → RenderOut
  | [] => roEmpty
  | c :: cs =>
    let r := astNodeToJsx cfg md5f reg (depth + 1) false [] [] tmpl c
    let rest := refKids cfg md5f reg depth tmpl cs
    ⟨r.out ++ rest.out, r.writes ++ rest.writes, r.warns ++ rest.warns⟩

end

/-! ## Pattern detection and extraction (`identifyComponents`) -/

inductive CandType where
  | layout | repetition
deriving DecidableEq, BEq

structure Candidate where
  nameAttempt : String
  astNode : Node
  ctype : CandType
  propsSpec : List (String × PropSpecEntry)
  instances : List Node

/-- The layout pass: one single-instance candidate per identifier
match not already claimed, with a literally empty props spec. -/
def layoutCandidates (cfg : Config) (reg : Registry) (body : Node) : List Candidate :=
  cfg.layoutIdentifiers.flatMap (fun identifier =>
    (findNodes (fun n =>
      n.ntype == .tag &&
      ((match alGet n.attribs "class" with
        | some c => strMem (jsSplitChar ' ' c) identifier
        | none => false) ||
       (alGet n.attribs "id" == some identifier))) body).filterMap (fun n =>
      if isNodeAlreadyComponentPart reg n then none
      else some ⟨toPascalCase identifier ++ "Layout", n, .layout, [], [n]⟩))

structure RepState where
  processed : List Nat
  sigs : List (String × List (Node × List PathElem))

def addUniqueN (l : List Nat) (x : Nat) : List Nat := if l.contains x then l else l ++ [x]

def sigsAppend (m : List (String × List (Node × List PathElem))) (sig : String)
    (entry : Node × List PathElem) : List (String × List (Node × List PathElem)) :=
  match m with
  | [] => [(sig, [entry])]
  | (k, v) :: rest =>
    if k == sig then (k, v ++ [entry]) :: rest else (k, v) :: sigsAppend rest sig entry

mutual

def findRep (cfg : Config) (reg : Registry) : Node → List PathElem → RepState → RepState
  | n@(.mk nid _ _ _ _ children), cur, st =>
    if st.processed.contains nid then st
    else
      let st1 :=
        if isNodeEligibleForComponentization reg n &&
           decide (cfg.minChildrenForRepetition ≤ children.length) then
          { st with sigs := sigsAppend st.sigs (getStructuralSignature n) (n, cur) }
        else st
      let st2 := findRepKids cfg reg children cur 0 st1
      { st2 with processed := addUniqueN st2.processed nid }

def findRepKids (cfg : Config) (reg : Registry) :
    List Node → List PathElem → Nat → RepState → RepState
  | [], _, _, st => st
  | c :: cs, cur, i, st =>
    let st' :=
      if c.ntype == .tag && c.name == "svg" then
        { st with processed := addUniqueN st.processed c.id }
      else findRep cfg reg c (cur ++ [.str "children", .num i]) st
    findRepKids cfg reg cs cur (i + 1) st'

end

/-- The repetition pass: group by signature, then form a candidate per
group reaching the minimum instance count. -/
def repetitionCandidates (cfg : Config) (reg : Registry) (body : Node) : List Candidate :=
  let st := findRep cfg reg body [] ⟨[], []⟩
  st.sigs.filterMap (fun kv =>
    let nwps := kv.2
    if decide (cfg.minRepetitionsForComponent ≤ nwps.length) then
      match nwps with
      | (firstNode, _) :: _ =>
        if isNodeAlreadyComponentPart reg firstNode then none
        else
          let classes :=
            match alGet firstNode.attribs "class" with
            | some c => some ((jsSplitWs (jsTrim c)).filter (fun w => w ≠ ""))
            | none => none
          let b1 :=
            match classes with
            | some (c0 :: _) => toPascalCase c0
            | _ =>
              match alGet firstNode.attribs "id" with
              | some i => if i ≠ "" then toPascalCase i else "Reusable"
              | none => "Reusable"
          let b2 :=
            if b1 = "" || decide (b1.length ≤ 1) || b1 = "W" then
              toPascalCase firstNode.name ++ "Element"
            else b1
          some ⟨b2 ++ "Item", firstNode, .repetition,
                analyzeInstancesForProps firstNode (nwps.map (·.1)),
                nwps.map (·.1)⟩
      | [] => none
    else none)

/-- The process-wide `GlobalRegistry`:
`globalGeneratedComponentSignatures` (fingerprint → name, file path)
and `globalNameUsage` (name → fingerprint). -/
structure GlobalState where
  sigs : List (String × (String × String))
  nameUsage : List (String × String)

def gsEmpty : GlobalState := ⟨[], []⟩

def takeStr (n : Nat) (s : String) : String := (s.toList.take n).asString

/-- The naming resolution of the extraction loop: reuse on a known
fingerprint; otherwise claim the unclaimed base name (recording it in
`nameUsage`) or, when the base name is claimed by a different
fingerprint, derive `base_<first 8 chars of fingerprint>` (which the
source does not record in `nameUsage`).  Returns
(finalName, filePath, isNewGlobalComponent, state). -/
def resolveComponentNaming (gs : GlobalState) (fingerprint baseName componentsPath : String) :
    String × String × Bool × GlobalState :=
  match alGet gs.sigs fingerprint with
  | some nf => (nf.1, nf.2, false, gs)
  | none =>
    match alGet gs.nameUsage baseName with
    | none =>
      (baseName, componentsPath ++ "/" ++ baseName ++ ".jsx", true,
       { gs with nameUsage := alSet gs.nameUsage baseName fingerprint })
    | some _ =>
      let finalName := baseName ++ "_" ++ takeStr 8 fingerprint
      (finalName, componentsPath ++ "/" ++ finalName ++ ".jsx", true, gs)

structure CompDef where
  name : String
  nameAttempt : String
  jsxBody : String
  filePath : String
  ctype : CandType
  propsSpec : List (String × PropSpecEntry)

/-- Trace of one candidate's turn through the extraction loop: the
registry state its body was rendered against, the rendered body, and
the resolved name.  These are observations of values the source
computes at lines 373-396. -/
structure TraceEntry where
  regBefore : Registry
  nameAttempt : String
  rendered : String
  finalName : String
  reused : Bool

structure ExtractSt where
  reg : Registry
  gs : GlobalState
  defs : List CompDef
  trace : List TraceEntry
  writes : List (String × String)
  warns : List String

/-- One iteration of the extraction loop: render the candidate's body
against the current registry (template = its own root), fingerprint
it, resolve the name, register every instance, record the definition
when new. -/
def processCandidate (cfg : Config) (md5f : String → String) (st : ExtractSt)
    (cand : Candidate) : ExtractSt :=
  let r := astNodeToJsx cfg md5f st.reg 0 true cand.propsSpec [] (some cand.astNode.id)
    cand.astNode
  let fp := generateComponentFingerprint md5f r.out cand.propsSpec
  let res := resolveComponentNaming st.gs fp cand.nameAttempt cfg.componentsPath
  let finalName := res.1
  let filePath := res.2.1
  let isNew := res.2.2.1
  let gs1 := res.2.2.2
  let reg1 := cand.instances.foldl (fun rg inst =>
    alSetN rg inst.id ⟨finalName, cand.astNode, cand.propsSpec⟩) st.reg
  let gs2 := if isNew then { gs1 with sigs := alSet gs1.sigs fp (finalName, filePath) } else gs1
  let defs1 :=
    if isNew then
      st.defs ++ [⟨finalName, cand.nameAttempt, r.out, filePath, cand.ctype, cand.propsSpec⟩]
    else st.defs
  { reg := reg1, gs := gs2, defs := defs1,
    trace := st.trace ++ [⟨st.reg, cand.nameAttempt, r.out, finalName, !isNew⟩],
    writes := st.writes ++ r.writes, warns := st.warns ++ r.warns }

/-- `identifyComponents`: layout candidates, then repetition
candidates, sorted ascending by subtree node count (stably, as JS
`Array.prototype.sort`), then extracted in order. -/
def identifyComponents (cfg : Config) (md5f : String → String) (gs : GlobalState)
    (reg : Registry) (body : Node) : ExtractSt :=
  let cands := layoutCandidates cfg reg body ++ repetitionCandidates cfg reg body
  let sorted := sortByLt (fun a b => decide (countNodes a.astNode < countNodes b.astNode)) cands
  sorted.foldl (processCandidate cfg md5f) ⟨reg, gs, [], [], [], []⟩

/-- The page render of `processSingleAst`: each body child rendered as
a call site with empty props spec and no active template. -/
def renderPageKids (cfg : Config) (md5f : String → String) (reg : Registry) :
    List Node → RenderOut
  | [] => roEmpty
  | c :: cs =>
    let r := astNodeToJsx cfg md5f reg 0 false [] [] none c
    let rest := renderPageKids cfg md5f reg cs
    ⟨r.out ++ rest.out, r.writes ++ rest.writes, r.warns ++ rest.warns⟩

structure ProcessResult where
  extract : ExtractSt
  page : RenderOut

/-- `processSingleAst` on one body node: fresh per-tree registry,
extraction, then the page body render. -/
def processAst (cfg : Config) (md5f : String → String) (gs : GlobalState)
    (body : Node) : ProcessResult :=
  let er := identifyComponents cfg md5f gs [] body
  ⟨er, renderPageKids cfg md5f er.reg body.children⟩

def processAstWrites (pr : ProcessResult) : List (String × String) :=
  pr.extract.writes ++ pr.page.writes

/-- A whole batch run (`main`): the global state threads across trees,
the local registry is rebuilt per tree; the icon-asset writes of the
whole run, in order. -/
def runBatch (cfg : Config) (md5f : String → String) :
    GlobalState → List Node → List (String × String)
  | _, [] => []
  | gs, b :: bs =>
    let pr := processAst cfg md5f gs b
    processAstWrites pr ++ runBatch cfg md5f pr.extract.gs bs

/-! ## Claim-side definitions

These definitions follow the wording of spec claims (not the source)
and are compared against the source-derived definitions above. -/

/-- Equality of two string lists viewed as sets. -/
def setEqStr (l1 l2 : List String) : Bool :=
  l1.all (strMem l2) && l2.all (strMem l1)

/-- The whitespace-separated class tokens of an element, per the
claim's words. -/
def classTokensOf (attribs : List (String × String)) : List String :=
  match alGet attribs "class" with
  | some c => jsSplitWs c
  | none => []

/-- The node kinds the signature treats as elements. -/
def isElemKind : NType → Bool
  | .tag | .script | .style => true
  | _ => false

/-- Kind agreement for non-element nodes (content ignored). -/
def sameLeafKind (t1 t2 : NType) : Bool :=
  match t1, t2 with
  | .text, .text => true
  | .comment, .comment => true
  | .directive, .directive => true
  | .other s1, .other s2 => s1 == s2
  | _, _ => false

mutual

/-- The equivalence exactly as claim C4 words it: agreement on tag
name, the *set* of attribute names, the *set* of whitespace-separated
class tokens, and, recursively in order, the shapes of the children;
text/comment/directive content is ignored (nodes of those kinds are
equivalent exactly when their kinds agree). -/
def claimEquivN : Node → Node → Bool
  | .mk _ t1 n1 a1 _ c1, .mk _ t2 n2 a2 _ c2 =>
    if isElemKind t1 && isElemKind t2 then
      n1 == n2 && setEqStr (a1.map (·.1)) (a2.map (·.1)) &&
      setEqStr (classTokensOf a1) (classTokensOf a2) && claimEquivL c1 c2
    else sameLeafKind t1 t2

def claimEquivL : List Node → List Node → Bool
  | [], [] => true
  | x :: xs, y :: ys => claimEquivN x y && claimEquivL xs ys
  | _, _ => false

end

/-- The truthy class-attribute value, mirroring the signature's
`attribs?.class ? … : ''` test. -/
def truthyClass (attribs : List (String × String)) : Option String :=
  match alGet attribs "class" with
  | some c => if c ≠ "" then some c else none
  | none => none

mutual

/-- The corrected equivalence: like `claimEquivN` but class tokens are
compared as sorted lists *with multiplicity* (together with the
presence of a truthy class attribute) and attribute names as sorted
lists, which is exactly the data the signature encodes. -/
def shapeEquivN : Node → Node → Bool
  | .mk _ t1 n1 a1 _ c1, .mk _ t2 n2 a2 _ c2 =>
    if isElemKind t1 && isElemKind t2 then
      n1 == n2 &&
      sortByLt strLt (a1.map (·.1)) == sortByLt strLt (a2.map (·.1)) &&
      (match truthyClass a1, truthyClass a2 with
       | some v1, some v2 => sortByLt strLt (jsSplitWs v1) == sortByLt strLt (jsSplitWs v2)
       | none, none => true
       | _, _ => false) &&
      shapeEquivL c1 c2
    else sameLeafKind t1 t2

def shapeEquivL : List Node → List Node → Bool
  | [], [] => true
  | x :: xs, y :: ys => shapeEquivN x y && shapeEquivL xs ys
  | _, _ => false

end

/-- Claim C6's description of resolving one declared prop at a call
site: walk the instance along the stored path and take the instance's
own varying value there — the attribute value, the trimmed text, or
the content-addressed icon reference. -/
def claimResolveProp (cfg : Config) (md5f : String → String) (node : Node)
    (sp : PropSpecEntry) : JSValue :=
  match sp.ptype with
  | .attr => walkTruthy (.node node) sp.path
  | .textChild =>
    match walkTruthy (.node node) sp.path with
    | .node tn => .str (jsTrim tn.data)
    | _ => .str ""
  | .svg =>
    match walkTruthy (.node node) sp.path with
    | .node svgN =>
      .str (publicSrcPathOf cfg (svgFilenameOf md5f (renderXmlNode (normalizeViewbox svgN))))
    | _ => .str ""
  | .childrenKind => JSValue.undef

/-- Claim C6 field-for-field resolution of a whole spec (children
props are forwarded separately, hence skipped). -/
def claimInstanceProps (cfg : Config) (md5f : String → String) (node : Node)
    (spec : List (String × PropSpecEntry)) : List (String × JSValue) :=
  spec.filterMap (fun kv =>
    match kv.2.ptype with
    | .childrenKind => none
    | _ => some (kv.1, claimResolveProp cfg md5f node kv.2))

/-! ## Guard-free repetition detector (claim C7)

The repetition detector with the already-claimed eligibility guard
removed, otherwise identical to `findRep`. -/

def isNodeEligibleNoGuard (n : Node) : Bool :=
  n.ntype == .tag && n.name ≠ "svg"

mutual

def findRepNG (cfg : Config) : Node → List PathElem → RepState → RepState
  | n@(.mk nid _ _ _ _ children), cur, st =>
    if st.processed.contains nid then st
    else
      let st1 :=
        if isNodeEligibleNoGuard n &&
           decide (cfg.minChildrenForRepetition ≤ children.length) then
          { st with sigs := sigsAppend st.sigs (getStructuralSignature n) (n, cur) }
        else st
      let st2 := findRepKidsNG cfg children cur 0 st1
      { st2 with processed := addUniqueN st2.processed nid }

def findRepKidsNG (cfg : Config) : List Node → List PathElem → Nat → RepState → RepState
  | [], _, _, st => st
  | c :: cs, cur, i, st =>
    let st' :=
      if c.ntype == .tag && c.name == "svg" then
        { st with processed := addUniqueN st.processed c.id }
      else findRepNG cfg c (cur ++ [.str "children", .num i]) st
    findRepKidsNG cfg cs cur (i + 1) st'

end

/-- The repetition pass built on the guard-free traversal; the group
processing is unchanged. -/
def repetitionCandidatesNG (cfg : Config) (reg : Registry) (body : Node) : List Candidate :=
  let st := findRepNG cfg body [] ⟨[], []⟩
  st.sigs.filterMap (fun kv =>
    let nwps := kv.2
    if decide (cfg.minRepetitionsForComponent ≤ nwps.length) then
      match nwps with
      | (firstNode, _) :: _ =>
        if isNodeAlreadyComponentPart reg firstNode then none
        else
          let classes :=
            match alGet firstNode.attribs "class" with
            | some c => some ((jsSplitWs (jsTrim c)).filter (fun w => w ≠ ""))
            | none => none
          let b1 :=
            match classes with
            | some (c0 :: _) => toPascalCase c0
            | _ =>
              match alGet firstNode.attribs "id" with
              | some i => if i ≠ "" then toPascalCase i else "Reusable"
              | none => "Reusable"
          let b2 :=
            if b1 = "" || decide (b1.length ≤ 1) || b1 = "W" then
              toPascalCase firstNode.name ++ "Element"
            else b1
          some ⟨b2 ++ "Item", firstNode, .repetition,
                analyzeInstancesForProps firstNode (nwps.map (·.1)),
                nwps.map (·.1)⟩
      | [] => none
    else none)

/-! ## Test fixtures for the counterexamples and witnesses -/

/-- Concrete stand-in for the external md5 digest in concrete runs
(the properties checked on concrete inputs do not depend on the
digest's internals, only on it being a function). -/
def md5Stub : String → String := fun s => s

/-- A run of global-naming resolutions as the extraction loop performs
them: resolve, then record the fingerprint in the signature map when
the component is new. -/
def resolveSeq (cpath : String) : GlobalState → List (String × String) → List String
  | _, [] => []
  | gs, (fp, base) :: rest =>
    let r := resolveComponentNaming gs fp base cpath
    let gs2 :=
      if r.2.2.1 then { r.2.2.2 with sigs := alSet r.2.2.2.sigs fp (r.1, r.2.1) }
      else r.2.2.2
    r.1 :: resolveSeq cpath gs2 rest

/-- Write-log well-formedness: a write is an icon write, targeting the
content-addressed path of its own content. -/
def IsIconWrite (cfg : Config) (md5f : String → String) (w : String × String) : Prop :=
  w.1 = svgDiskPathOf cfg (svgFilenameOf md5f w.2)

/-- Decimal value of a digit-character list (left fold), used to show
`Nat.repr` is injective. -/
def decValChars (l : List Char) : Nat := l.foldl (fun a c => 10 * a + (c.toNat - 48)) 0

/-- Fixtures: configuration with two layout identifiers matching one
node (claim C5). -/
def cfgC5 : Config :=
  ⟨["img", "br"], ["navbar", "header"], 1, 3, "svgs", "public/svgs", "src/components"⟩

def navNodeC5 : Node :=
  elemN 10 "nav" [("class", "navbar header")] [elemN 11 "div" [] [textN 12 "x"]]

def bodyC5 : Node := elemN 1 "body" [] [navNodeC5]

/-- Fixtures: a page whose body holds two icons with identical
serialized content (claim C1). -/
def cfgC1 : Config := ⟨["img"], [], 1, 3, "svgs", "public/svgs", "src/components"⟩

def svgC1a : Node := elemN 20 "svg" [("width", "10")] [elemN 21 "path" [("d", "M0 0")] []]

def svgC1b : Node := elemN 22 "svg" [("width", "10")] [elemN 23 "path" [("d", "M0 0")] []]

def bodyC1 : Node := elemN 2 "body" [] [svgC1a, svgC1b]

def svgContentC1 : String := "<svg width=\"10\"><path d=\"M0 0\"/></svg>"

/-- Fixtures: template with an attribute the instance lacks
(claim C3). -/
def tmplC3 : Node := elemN 1 "div" [("a", "x")] []

def instC3 : Node := elemN 2 "div" [] []

/-- Fixtures: class-token collisions for the signature (claim C4). -/
def c4A1 : Node := elemN 1 "div" [("class", "a_b")] []

def c4B1 : Node := elemN 2 "div" [("class", "a b")] []

def c4A2 : Node := elemN 3 "div" [("class", "a a")] []

def c4B2 : Node := elemN 4 "div" [("class", "a")] []

/-- Fixtures: fingerprints sharing their first 8 characters
(claim C2); realizable since fingerprints are 32-hex-character md5
digests and distinct digests can share an 8-character prefix. -/
def fpC2base : String := "ffffffffffffffffffffffffffffffff"

def fpC2a : String := "aaaaaaaa111111111111111111111111"

def fpC2b : String := "aaaaaaaa222222222222222222222222"

/-- Claim C3's trigger condition for one instance callback: the value
differs from the template's at that path, or the path is absent from
the template's enumeration. -/
def templateDisagrees (t : Node) (p : List PathElem) (v : String) : Bool :=
  match alGet (templateMapOf t) (pathToString p) with
  | none => true
  | some info => v ≠ info.1

/-- Fixtures for the C3 witness: two signature-equal list items whose
link targets differ. -/
def liC3a : Node := elemN 1 "li" [] [elemN 2 "a" [("href", "/home")] []]

def liC3b : Node := elemN 4 "li" [] [elemN 5 "a" [("href", "/about")] []]

/-- The inline markup the extraction loop renders for `navNodeC5`
(claim C5's counterexample observation). -/
def inlineNavC5 : String := "<nav className=\x7b\"navbar header\"\x7d><div>x</div></nav>"

/-- Fixtures for the call-site round-trip (claim C6): a registered
instance with an attribute prop, a text prop and an icon prop. -/
def svgC6 : Node := elemN 43 "svg" [("viewbox", "0 0 1 1")] [elemN 44 "path" [("d", "M1 1")] []]

def liC6 : Node :=
  elemN 40 "li" [("href", "/about")] [textN 41 " About ", svgC6]

def specC6 : List (String × PropSpecEntry) :=
  [("href", ⟨.attr, [.str "attribs", .str "href"], []⟩),
   ("liText", ⟨.textChild, [.str "children", .num 0], []⟩),
   ("iconSrc", ⟨.svg, [.str "children", .num 1], []⟩)]

def infoC6 : CompInfo := ⟨"NavItem", liC6, specC6⟩

def regC6 : Registry := [(40, infoC6)]

/-- Numeric value of a decimal digit character, used to invert the decimal
rendering performed by JS template interpolation of the counter. -/
def decDigit (c : Char) : Nat := c.toNat - 48

/-- Decode a decimal digit string back to the number it renders. -/
def decVal (l : List Char) : Nat := l.foldl (fun a c => a * 10 + decDigit c) 0

/-! # Theorems -/

/-! ## Mutual induction over nodes and child lists -/

mutual

theorem nodeIndN (P : Node → Prop) (Q : List Node → Prop)
    (hmk : ∀ i t nm a d c, Q c → P (.mk i t nm a d c))
    (hnil : Q []) (hcons : ∀ x xs, P x → Q xs → Q (x :: xs)) : ∀ n : Node, P n
  | .mk i t nm a d c => hmk i t nm a d c (nodeIndL P Q hmk hnil hcons c)

theorem nodeIndL (P : Node → Prop) (Q : List Node → Prop)
    (hmk : ∀ i t nm a d c, Q c → P (.mk i t nm a d c))
    (hnil : Q []) (hcons : ∀ x xs, P x → Q xs → Q (x :: xs)) : ∀ l : List Node, Q l
  | [] => hnil
  | x :: xs =>
    hcons x xs (nodeIndN P Q hmk hnil hcons x) (nodeIndL P Q hmk hnil hcons xs)

end

/-! ## Claim C7: the already-claimed guard is a no-op within one tree -/

theorem elig_nil_reg (n : Node) :
    isNodeEligibleForComponentization ([] : Registry) n = isNodeEligibleNoGuard n := by
  simp [isNodeEligibleForComponentization, isNodeEligibleNoGuard,
    isNodeAlreadyComponentPart, alHasN, alGetN]

theorem findRep_nil_reg (cfg : Config) :
    (∀ (n : Node) (cur : List PathElem) (st : RepState),
      findRep cfg [] n cur st = findRepNG cfg n cur st) ∧
    (∀ (l : List Node) (cur : List PathElem) (i : Nat) (st : RepState),
      findRepKids cfg [] l cur i st = findRepKidsNG cfg l cur i st) := by
  have hmk : ∀ i t nm a d c,
      (∀ cur i' st, findRepKids cfg [] c cur i' st = findRepKidsNG cfg c cur i' st) →
      ∀ cur st, findRep cfg [] (.mk i t nm a d c) cur st =
        findRepNG cfg (.mk i t nm a d c) cur st := by
    intro i t nm a d c ih cur st
    simp only [findRep, findRepNG, elig_nil_reg, ih]
  have hnil : ∀ (cur : List PathElem) (i : Nat) (st : RepState),
      findRepKids cfg [] [] cur i st = findRepKidsNG cfg [] cur i st := by
    intro cur i st
    simp only [findRepKids, findRepKidsNG]
  have hcons : ∀ x xs,
      (∀ cur st, findRep cfg [] x cur st = findRepNG cfg x cur st) →
      (∀ cur i st, findRepKids cfg [] xs cur i st = findRepKidsNG cfg xs cur i st) →
      ∀ cur i st, findRepKids cfg [] (x :: xs) cur i st =
        findRepKidsNG cfg (x :: xs) cur i st := by
    intro x xs ihx ihxs cur i st
    simp only [findRepKids, findRepKidsNG, ihx, ihxs]
  exact ⟨nodeIndN _ _ hmk hnil hcons, nodeIndL _ _ hmk hnil hcons⟩

/-- Claim C7: with the per-tree registry in the freshly created state
the pipeline passes to detection (empty — nothing has been registered
when detection runs), the repetition detector with the already-claimed
eligibility guard produces exactly the candidate list of the detector
with that guard removed. -/
theorem c7_claimed_guard_noop (cfg : Config) (body : Node) :
    repetitionCandidates cfg [] body = repetitionCandidatesNG cfg [] body := by
  simp only [repetitionCandidates, repetitionCandidatesNG, (findRep_nil_reg cfg).1]

/-! ## Claim C10: single-instance inference yields the empty spec -/

/-- Claim C10: prop inference on an instance list holding only the
template yields the empty spec, and every layout-origin candidate has
exactly one instance and zero props. -/
theorem c10_single_instance_empty_spec :
    (∀ t : Node, analyzeInstancesForProps t [t] = []) ∧
    (∀ (cfg : Config) (reg : Registry) (body : Node) (c : Candidate),
      c ∈ layoutCandidates cfg reg body → c.propsSpec = [] ∧ c.instances = [c.astNode]) := by
  constructor
  · intro t
    simp [analyzeInstancesForProps, differingPathsOf, diffOuterStep, buildPropsSpec]
  · intro cfg reg body c hc
    simp only [layoutCandidates, List.mem_flatMap, List.mem_filterMap] at hc
    obtain ⟨ident, -, n, -, hf⟩ := hc
    cases hb : isNodeAlreadyComponentPart reg n
    · simp only [hb, Bool.false_eq_true, if_false, Option.some.injEq] at hf
      subst hf
      exact ⟨rfl, rfl⟩
    · simp [hb] at hf

/-! ## Claim C2: global naming collisions -/

/-- Claim C2 as stated is false: the disambiguated name is neither
checked against nor recorded in the name-usage map, so two distinct
fingerprints whose first 8 characters agree, resolved under the same
claimed base name, receive the same final name. -/
theorem c2_counterexample :
    fpC2a ≠ fpC2b ∧
    resolveSeq "src/components" gsEmpty
        [(fpC2base, "CardItem"), (fpC2a, "CardItem"), (fpC2b, "CardItem")] =
      ["CardItem", "CardItem_aaaaaaaa", "CardItem_aaaaaaaa"] := by
  constructor
  · decide
  · rfl

theorem strAppend_left_cancel {a x y : String} (h : a ++ x = a ++ y) : x = y := by
  have hd := congrArg String.data h
  simp only [String.data_append] at hd
  have h2 := List.append_cancel_left hd
  cases x with
  | mk dx =>
    cases y with
    | mk dy => exact congrArg String.mk (by simpa using h2)

theorem strAppend_ne_left (a x : String) (hx : x.data ≠ []) : a ++ x ≠ a := by
  intro h
  have hd := congrArg String.data h
  simp only [String.data_append] at hd
  have hlen := congrArg List.length hd
  simp only [List.length_append] at hlen
  have hz : x.data.length = 0 := by omega
  exact hx (List.length_eq_zero.mp hz)

/-- Claim C2 amended: the second-resolved distinct fingerprint under a
claimed base name is `base_<8-char digest prefix>`, which differs from
the first claimant's name; and two such disambiguated resolutions get
distinct names provided their 8-character fingerprint prefixes differ
(the counterexample shows distinctness fails when the prefixes
agree). -/
theorem c2_distinct_prefix_names_distinct
    (gs : GlobalState) (f0 f1 f2 b cpath : String)
    (h0 : alGet gs.nameUsage b = some f0)
    (hs1 : alGet gs.sigs f1 = none) (hn1 : f1 ≠ f0) :
    (resolveComponentNaming gs f1 b cpath).1 = b ++ "_" ++ takeStr 8 f1 ∧
    (resolveComponentNaming gs f1 b cpath).1 ≠ b ∧
    (∀ gs2 : GlobalState, alGet gs2.sigs f2 = none →
      alGet gs2.nameUsage b = some f0 → f2 ≠ f0 →
      takeStr 8 f1 ≠ takeStr 8 f2 →
      (resolveComponentNaming gs2 f2 b cpath).1 ≠ (resolveComponentNaming gs f1 b cpath).1) := by
  have hr1 : (resolveComponentNaming gs f1 b cpath).1 = b ++ "_" ++ takeStr 8 f1 := by
    simp [resolveComponentNaming, hs1, h0]
  refine ⟨hr1, ?_, ?_⟩
  · rw [hr1]
    rw [String.append_assoc]
    apply strAppend_ne_left
    simp [String.data_append]
  · intro gs2 hs2 h02 hf2 hpre
    have hr2 : (resolveComponentNaming gs2 f2 b cpath).1 = b ++ "_" ++ takeStr 8 f2 := by
      simp [resolveComponentNaming, hs2, h02]
    rw [hr1, hr2, String.append_assoc, String.append_assoc]
    intro h
    have h2 := strAppend_left_cancel h
    exact hpre (strAppend_left_cancel h2).symm

/-- Witness for the amended C2 theorem at concrete inputs. -/
theorem c2_distinct_prefix_names_distinct_witness :
    (resolveComponentNaming ⟨[], [("CardItem", fpC2base)]⟩ fpC2a "CardItem" "p").1 =
      "CardItem" ++ "_" ++ takeStr 8 fpC2a ∧
    (resolveComponentNaming ⟨[], [("CardItem", fpC2base)]⟩ fpC2a "CardItem" "p").1 ≠ "CardItem" ∧
    (resolveComponentNaming ⟨[], [("CardItem", fpC2base)]⟩ "bbbbbbbb" "CardItem" "p").1 ≠
      (resolveComponentNaming ⟨[], [("CardItem", fpC2base)]⟩ fpC2a "CardItem" "p").1 := by
  have h := c2_distinct_prefix_names_distinct ⟨[], [("CardItem", fpC2base)]⟩ fpC2base fpC2a
    "bbbbbbbb" "CardItem" "p" (by rfl) (by rfl) (by decide)
  exact ⟨h.1, h.2.1, h.2.2 _ (by rfl) (by rfl) (by decide) (by decide)⟩

/-! ## Claim C8: rendering is total; unhandled kinds render empty -/

/-- Claim C8: the renderer is a total function by construction; a node
of a kind outside the handled six (and not rendered as a registered
component reference — only element nodes are ever registered) renders
as the empty string, performs no write, and logs exactly one
warning. -/
theorem c8_unhandled_kind_renders_empty
    (cfg : Config) (md5f : String → String) (reg : Registry) (depth : Nat) (isDef : Bool)
    (spec : List (String × PropSpecEntry)) (nodePath : List PathElem) (tmpl : Option Nat)
    (n : Node) (s : String) (ht : n.ntype = .other s) (hreg : alHasN reg n.id = false) :
    astNodeToJsx cfg md5f reg depth isDef spec nodePath tmpl n =
      ⟨"", [], ["Unhandled AST node type: " ++ s ++ " at path " ++ pathToString nodePath]⟩ := by
  cases n with
  | mk i t nm a d c =>
    simp only [Node.ntype] at ht
    simp only [Node.id] at hreg
    subst ht
    simp only [astNodeToJsx, hreg, Bool.false_and, Bool.false_eq_true, if_false]

/-- Witness: a concrete `cdata`-kind node with an empty registry. -/
theorem c8_unhandled_kind_renders_empty_witness :
    astNodeToJsx cfgC1 md5Stub [] 0 false [] [] none (.mk 5 (.other "cdata") "" [] "" []) =
      ⟨"", [], ["Unhandled AST node type: cdata at path "]⟩ := by
  have h := c8_unhandled_kind_renders_empty cfgC1 md5Stub [] 0 false [] [] none
    (.mk 5 (.other "cdata") "" [] "" []) "cdata" rfl rfl
  simpa using h

/-! ## Claim C4: the signature iff -/

/-- Claim C4 as stated is false in both directions: the signature
joins sorted class tokens with underscores and keeps duplicates, so
token sets `\x7ba_b\x7d` and `\x7ba, b\x7d` collide (signature equal,
claimed equivalence false) while `class="a a"` and `class="a"` have
equal token sets but different signatures. -/
theorem c4_counterexample :
    (getStructuralSignature c4A1 = getStructuralSignature c4B1 ∧
     claimEquivN c4A1 c4B1 = false) ∧
    (claimEquivN c4A2 c4B2 = true ∧
     getStructuralSignature c4A2 ≠ getStructuralSignature c4B2) := by
  refine ⟨⟨by decide, by decide⟩, by decide, by decide⟩

theorem sigList_cons (c : Node) (cs : List Node) :
    sigList (c :: cs) =
      getStructuralSignature c ++ (if cs.isEmpty then "" else "|" ++ sigList cs) := by
  rw [sigList]

theorem classBlock_congr {a1 a2 : List (String × String)}
    (h : (match truthyClass a1, truthyClass a2 with
      | some v1, some v2 => sortByLt strLt (jsSplitWs v1) == sortByLt strLt (jsSplitWs v2)
      | none, none => true
      | _, _ => false) = true) :
    classBlockOf a1 = classBlockOf a2 := by
  have hb1 : classBlockOf a1 = (match truthyClass a1 with
      | some v => "_CLASS_" ++ myJoin "_" (sortByLt strLt (jsSplitWs v))
      | none => "") := by
    unfold classBlockOf truthyClass
    cases alGet a1 "class" with
    | none => rfl
    | some v =>
      by_cases hv : v = "" <;> simp [hv]
  have hb2 : classBlockOf a2 = (match truthyClass a2 with
      | some v => "_CLASS_" ++ myJoin "_" (sortByLt strLt (jsSplitWs v))
      | none => "") := by
    unfold classBlockOf truthyClass
    cases alGet a2 "class" with
    | none => rfl
    | some v =>
      by_cases hv : v = "" <;> simp [hv]
  rw [hb1, hb2]
  cases ht1 : truthyClass a1 with
  | none =>
    cases ht2 : truthyClass a2 with
    | none => rfl
    | some v2 => simp [ht1, ht2] at h
  | some v1 =>
    cases ht2 : truthyClass a2 with
    | none => simp [ht1, ht2] at h
    | some v2 =>
      simp only [ht1, ht2] at h
      show "_CLASS_" ++ myJoin "_" (sortByLt strLt (jsSplitWs v1)) =
        "_CLASS_" ++ myJoin "_" (sortByLt strLt (jsSplitWs v2))
      rw [eq_of_beq h]

/-- Claim C4 amended, the direction that survives: agreement on kind,
tag name, sorted attribute-name list, truthy-class presence with equal
sorted token lists (with multiplicity), and recursively children,
implies signature equality. -/
theorem c4_shape_equiv_implies_sig_eq :
    (∀ a b : Node, shapeEquivN a b = true →
      getStructuralSignature a = getStructuralSignature b) ∧
    (∀ as bs : List Node, shapeEquivL as bs = true → sigList as = sigList bs) := by
  have hmk : ∀ i t nm a d c,
      (∀ bs, shapeEquivL c bs = true → sigList c = sigList bs) →
      ∀ b, shapeEquivN (.mk i t nm a d c) b = true →
        getStructuralSignature (.mk i t nm a d c) = getStructuralSignature b := by
    intro i t nm a d c ih b h
    cases b with
    | mk j t2 nm2 a2 d2 c2 =>
      rw [shapeEquivN] at h
      by_cases hk : (isElemKind t && isElemKind t2) = true
      · rw [if_pos hk] at h
        rw [Bool.and_eq_true, Bool.and_eq_true, Bool.and_eq_true] at h
        obtain ⟨⟨⟨hname, hattrs⟩, hclass⟩, hkids⟩ := h
        have hsig : elemSig nm a (sigList c) = elemSig nm2 a2 (sigList c2) := by
          unfold elemSig attrNamesJoined
          rw [eq_of_beq hname, eq_of_beq hattrs, classBlock_congr hclass, ih c2 hkids]
        rw [Bool.and_eq_true] at hk
        obtain ⟨hk1, hk2⟩ := hk
        cases t <;> cases t2 <;>
          first
          | exact Bool.noConfusion (show false = true from hk1)
          | exact Bool.noConfusion (show false = true from hk2)
          | simpa [getStructuralSignature] using hsig
      · rw [if_neg hk] at h
        cases t <;> cases t2 <;>
          simp_all [isElemKind, sameLeafKind, getStructuralSignature]
  have hnil : ∀ bs, shapeEquivL [] bs = true → sigList [] = sigList bs := by
    intro bs h
    cases bs with
    | nil => rfl
    | cons y ys => simp [shapeEquivL] at h
  have hcons : ∀ x xs,
      (∀ b, shapeEquivN x b = true → getStructuralSignature x = getStructuralSignature b) →
      (∀ bs, shapeEquivL xs bs = true → sigList xs = sigList bs) →
      ∀ bs, shapeEquivL (x :: xs) bs = true → sigList (x :: xs) = sigList bs := by
    intro x xs ihx ihxs bs h
    cases bs with
    | nil => simp [shapeEquivL] at h
    | cons y ys =>
      rw [shapeEquivL] at h
      obtain ⟨h1, h2⟩ := by simpa only [Bool.and_eq_true] using h
      have hx := ihx y h1
      have hxs := ihxs ys h2
      cases xs with
      | nil =>
        cases ys with
        | nil => rw [sigList_cons x [], sigList_cons y [], hx]
        | cons z zs => simp [shapeEquivL] at h2
      | cons w ws =>
        cases ys with
        | nil => simp [shapeEquivL] at h2
        | cons z zs =>
          rw [sigList_cons x (w :: ws), sigList_cons y (z :: zs), hx, hxs]
          simp [List.isEmpty_cons]
  exact ⟨nodeIndN _ _ hmk hnil hcons, nodeIndL _ _ hmk hnil hcons⟩

/-- Witness for the amended C4 direction: two structurally equivalent
elements with differing attribute order, attribute values and text
content get equal signatures. -/
theorem c4_shape_equiv_implies_sig_eq_witness :
    shapeEquivN (elemN 1 "li" [("href", "x"), ("class", "b  a")] [textN 2 "Home"])
        (elemN 9 "li" [("class", "a b"), ("href", "y")] [textN 8 "About"]) = true ∧
    getStructuralSignature (elemN 1 "li" [("href", "x"), ("class", "b  a")] [textN 2 "Home"]) =
      getStructuralSignature (elemN 9 "li" [("class", "a b"), ("href", "y")] [textN 8 "About"]) := by
  refine ⟨by decide, c4_shape_equiv_implies_sig_eq.1 _ _ (by decide)⟩

/-! ## Claims C5 and C6: registered nodes render as call sites -/

theorem instancePropsOf_foldl (cfg : Config) (md5f : String → String) (node : Node) :
    ∀ (spec : List (String × PropSpecEntry))
      (acc : List (String × JSValue) × List (String × String)),
      (spec.foldl (instancePropStep cfg md5f node) acc).1 =
        acc.1 ++ claimInstanceProps cfg md5f node spec := by
  intro spec
  induction spec with
  | nil => intro acc; simp [claimInstanceProps]
  | cons kv rest ih =>
    intro acc
    rw [List.foldl_cons, ih]
    obtain ⟨pn, sp⟩ := kv
    cases hp : sp.ptype
    · simp [instancePropStep, hp, claimInstanceProps, List.filterMap_cons, claimResolveProp,
        List.append_assoc]
    · cases hw : walkTruthy (.node node) sp.path <;>
        simp [instancePropStep, hp, hw, claimInstanceProps, List.filterMap_cons,
          claimResolveProp, List.append_assoc]
    · cases hw : walkTruthy (.node node) sp.path <;>
        first
        | (rename_i s
           by_cases hs : s = "" <;>
             simp [instancePropStep, hp, hw, hs, jsTruthy, claimInstanceProps,
               List.filterMap_cons, claimResolveProp, List.append_assoc])
        | simp [instancePropStep, hp, hw, jsTruthy, claimInstanceProps,
            List.filterMap_cons, claimResolveProp, List.append_assoc]
    · simp [instancePropStep, hp, claimInstanceProps, List.filterMap_cons]

theorem instancePropsOf_eq_claim (cfg : Config) (md5f : String → String) (node : Node)
    (spec : List (String × PropSpecEntry)) :
    (instancePropsOf cfg md5f node spec).1 = claimInstanceProps cfg md5f node spec := by
  rw [instancePropsOf, instancePropsOf_foldl]
  simp

theorem astNodeToJsx_ref_branch (cfg : Config) (md5f : String → String) (reg : Registry)
    (depth : Nat) (isDef : Bool) (spec : List (String × PropSpecEntry))
    (nodePath : List PathElem) (tmpl : Option Nat) (node : Node) (info : CompInfo)
    (h1 : alGetN reg node.id = some info) (h2 : (tmpl == some node.id) = false) :
    astNodeToJsx cfg md5f reg depth isDef spec nodePath tmpl node =
      refAssemble info.name
        (instancePropsOf cfg md5f node info.propsSpec).1
        (instancePropsOf cfg md5f node info.propsSpec).2
        (if alHas info.propsSpec "children" then
           refKids cfg md5f reg depth tmpl node.children
         else roEmpty) := by
  cases node with
  | mk i t nm a d c =>
    simp only [Node.id] at h1 h2
    simp only [astNodeToJsx, alHasN, h1, h2, Option.isSome_some, Bool.not_false,
      Bool.and_self, if_true, Node.children]

/-- Claim C6: at a rendered call site, the renderer resolves every
declared non-children prop to exactly the value described by the
claim — the instance's own attribute value, trimmed text, or
content-addressed icon reference obtained by walking the instance
along the prop's stored path — and assembles the reference from those
values. -/
theorem c6_call_site_prop_round_trip :
    (∀ (cfg : Config) (md5f : String → String) (node : Node)
       (spec : List (String × PropSpecEntry)),
      (instancePropsOf cfg md5f node spec).1 = claimInstanceProps cfg md5f node spec) ∧
    (∀ (cfg : Config) (md5f : String → String) (reg : Registry) (depth : Nat) (isDef : Bool)
       (spec : List (String × PropSpecEntry)) (nodePath : List PathElem) (tmpl : Option Nat)
       (node : Node) (info : CompInfo),
      alGetN reg node.id = some info → (tmpl == some node.id) = false →
      astNodeToJsx cfg md5f reg depth isDef spec nodePath tmpl node =
        refAssemble info.name
          (claimInstanceProps cfg md5f node info.propsSpec)
          (instancePropsOf cfg md5f node info.propsSpec).2
          (if alHas info.propsSpec "children" then
             refKids cfg md5f reg depth tmpl node.children
           else roEmpty)) := by
  refine ⟨instancePropsOf_eq_claim, ?_⟩
  intro cfg md5f reg depth isDef spec nodePath tmpl node info h1 h2
  rw [astNodeToJsx_ref_branch cfg md5f reg depth isDef spec nodePath tmpl node info h1 h2]
  rw [instancePropsOf_eq_claim]

/-- Witness for C6 on a concrete registered instance carrying an
attribute, a text and an icon prop. -/
theorem c6_call_site_prop_round_trip_witness :
    (instancePropsOf cfgC1 md5Stub liC6 specC6).1 = claimInstanceProps cfgC1 md5Stub liC6 specC6 ∧
    astNodeToJsx cfgC1 md5Stub regC6 0 false [] [] none liC6 =
      refAssemble infoC6.name
        (claimInstanceProps cfgC1 md5Stub liC6 infoC6.propsSpec)
        (instancePropsOf cfgC1 md5Stub liC6 infoC6.propsSpec).2
        (if alHas infoC6.propsSpec "children" then
           refKids cfgC1 md5Stub regC6 0 none liC6.children
         else roEmpty) :=
  ⟨c6_call_site_prop_round_trip.1 cfgC1 md5Stub liC6 specC6,
   c6_call_site_prop_round_trip.2 cfgC1 md5Stub regC6 0 false [] [] none liC6 infoC6 rfl rfl⟩

/-- Claim C5 as stated is false: in the extraction loop's processing
of `bodyC5` (one node carrying both configured layout identifiers),
the second candidate's definition body is rendered while node 10 is
already registered (its trace entry's registry contains id 10), yet
the render emits the node's inline markup again — not a reference to
the registered component `NavbarLayout` — because the node is the
template root of the definition being rendered. -/
theorem c5_counterexample :
    ((identifyComponents cfgC5 md5Stub gsEmpty [] bodyC5).trace.map
        (fun te => (alHasN te.regBefore navNodeC5.id, te.rendered, te.finalName))) =
      [(false, inlineNavC5, "NavbarLayout"), (true, inlineNavC5, "NavbarLayout")] ∧
    strStartsWith inlineNavC5 "<NavbarLayout" = false := by
  exact ⟨by decide, by decide⟩

/-- Claim C5 amended: a registered node that is *not* the template
root of the definition currently being rendered (in particular every
registered node during the final page render, where no template is
active) is emitted as a component reference `<Name …`, never as its
own inline markup. -/
theorem c5_registered_renders_as_reference
    (cfg : Config) (md5f : String → String) (reg : Registry) (depth : Nat) (isDef : Bool)
    (spec : List (String × PropSpecEntry)) (nodePath : List PathElem) (tmpl : Option Nat)
    (node : Node) (info : CompInfo)
    (h1 : alGetN reg node.id = some info) (h2 : (tmpl == some node.id) = false) :
    ∃ rest, (astNodeToJsx cfg md5f reg depth isDef spec nodePath tmpl node).out =
      "<" ++ info.name ++ rest := by
  rw [astNodeToJsx_ref_branch cfg md5f reg depth isDef spec nodePath tmpl node info h1 h2]
  set ip := (instancePropsOf cfg md5f node info.propsSpec).1
  set k := (if alHas info.propsSpec "children" then
    refKids cfg md5f reg depth tmpl node.children else roEmpty)
  simp only [refAssemble]
  split
  · exact ⟨propsStringOf ip ++ (">" ++ (k.out ++ ("</" ++ (info.name ++ ">")))),
      by simp [String.append_assoc]⟩
  · exact ⟨propsStringOf ip ++ " />", by simp [String.append_assoc]⟩

/-- Witness for the amended C5 theorem: the registered concrete node
renders as a reference in a page-body context. -/
theorem c5_registered_renders_as_reference_witness :
    ∃ rest, (astNodeToJsx cfgC1 md5Stub regC6 0 false [] [] none liC6).out =
      "<" ++ infoC6.name ++ rest :=
  c5_registered_renders_as_reference cfgC1 md5Stub regC6 0 false [] [] none liC6 infoC6 rfl rfl

/-- Witness for C10 (its second part has a membership hypothesis):
the first layout candidate of the C5 fixture. -/
theorem c10_single_instance_empty_spec_witness :
    analyzeInstancesForProps tmplC3 [tmplC3] = [] ∧
    ((⟨"NavbarLayout", navNodeC5, .layout, [], [navNodeC5]⟩ : Candidate).propsSpec = [] ∧
     (⟨"NavbarLayout", navNodeC5, .layout, [], [navNodeC5]⟩ : Candidate).instances =
       [(⟨"NavbarLayout", navNodeC5, .layout, [], [navNodeC5]⟩ : Candidate).astNode]) :=
  ⟨c10_single_instance_empty_spec.1 tmplC3,
   c10_single_instance_empty_spec.2 cfgC5 [] bodyC5 _ (by
     rw [show layoutCandidates cfgC5 [] bodyC5 =
       [⟨"NavbarLayout", navNodeC5, .layout, [], [navNodeC5]⟩,
        ⟨"HeaderLayout", navNodeC5, .layout, [], [navNodeC5]⟩] from rfl]
     exact List.mem_cons_self _ _)⟩

/-! ## Claim C1: icon asset writes -/

theorem iconWrite_is_icon (cfg : Config) (md5f : String → String) (s : String) :
    IsIconWrite cfg md5f (iconWrite cfg md5f s) := rfl

theorem instancePropStep_writes (cfg : Config) (md5f : String → String) (node : Node)
    (acc : List (String × JSValue) × List (String × String)) (kv : String × PropSpecEntry)
    (hacc : ∀ w ∈ acc.2, IsIconWrite cfg md5f w) :
    ∀ w ∈ (instancePropStep cfg md5f node acc kv).2, IsIconWrite cfg md5f w := by
  intro w hw
  cases hp : kv.2.ptype <;> simp only [instancePropStep, hp] at hw
  · exact hacc w hw
  · exact hacc w hw
  · split at hw
    · cases hv : walkTruthy (.node node) kv.2.path <;> simp only [hv] at hw
      all_goals try exact hacc w hw
      rcases List.mem_append.mp hw with h | h
      · exact hacc w h
      · rw [List.mem_singleton.mp h]
        exact iconWrite_is_icon cfg md5f _
    · exact hacc w hw
  · exact hacc w hw

theorem instancePropsOf_writes_aux (cfg : Config) (md5f : String → String) (node : Node) :
    ∀ (spec : List (String × PropSpecEntry)) acc,
      (∀ w ∈ acc.2, IsIconWrite cfg md5f w) →
      ∀ w ∈ (spec.foldl (instancePropStep cfg md5f node) acc).2, IsIconWrite cfg md5f w := by
  intro spec
  induction spec with
  | nil => intro acc hacc; simpa using hacc
  | cons kv rest ih =>
    intro acc hacc
    rw [List.foldl_cons]
    exact ih _ (instancePropStep_writes cfg md5f node acc kv hacc)

theorem instancePropsOf_writes (cfg : Config) (md5f : String → String) (node : Node)
    (spec : List (String × PropSpecEntry)) :
    ∀ w ∈ (instancePropsOf cfg md5f node spec).2, IsIconWrite cfg md5f w := by
  rw [instancePropsOf]
  exact instancePropsOf_writes_aux cfg md5f node spec ([], []) (by simp)

theorem render_writes_icon (cfg : Config) (md5f : String → String) :
    (∀ n : Node, ∀ reg depth isDef spec nodePath tmpl,
      ∀ w ∈ (astNodeToJsx cfg md5f reg depth isDef spec nodePath tmpl n).writes,
        IsIconWrite cfg md5f w) ∧
    (∀ l : List Node,
      (∀ reg depth isDef spec nodePath tmpl i,
        ∀ w ∈ (renderKidsIdx cfg md5f reg depth isDef spec nodePath tmpl l i).writes,
          IsIconWrite cfg md5f w) ∧
      (∀ reg depth tmpl,
        ∀ w ∈ (refKids cfg md5f reg depth tmpl l).writes, IsIconWrite cfg md5f w)) := by
  have hmk : ∀ i t nm a d c,
      ((∀ reg depth isDef spec nodePath tmpl j,
         ∀ w ∈ (renderKidsIdx cfg md5f reg depth isDef spec nodePath tmpl c j).writes,
           IsIconWrite cfg md5f w) ∧
       (∀ reg depth tmpl,
         ∀ w ∈ (refKids cfg md5f reg depth tmpl c).writes, IsIconWrite cfg md5f w)) →
      ∀ reg depth isDef spec nodePath tmpl,
        ∀ w ∈ (astNodeToJsx cfg md5f reg depth isDef spec nodePath tmpl
          (.mk i t nm a d c)).writes, IsIconWrite cfg md5f w := by
    intro i t nm a d c ihQ reg depth isDef spec nodePath tmpl w hw
    simp only [astNodeToJsx] at hw
    split at hw
    · -- registered-reference branch
      split at hw
      · simp only [refAssemble] at hw
        rcases List.mem_append.mp hw with h | h
        · exact instancePropsOf_writes cfg md5f _ _ w h
        · split at h
          · exact (ihQ.2 reg depth tmpl) w h
          · simp [roEmpty] at h
      · simp [roEmpty] at hw
    · -- the kind switch: the only write is the static icon
      -- externalization; children recursions are covered by `ihQ`
      cases t <;> (repeat' split at hw) <;>
        first
        | exact (ihQ.1 reg depth isDef spec nodePath tmpl 0) w hw
        | exact (ihQ.2 reg depth tmpl) w hw
        | (simp only [List.mem_singleton] at hw
           rw [hw]
           exact iconWrite_is_icon cfg md5f _)
        | simp_all [roText, roEmpty]
  have hnil :
      (∀ reg depth isDef spec nodePath tmpl i,
        ∀ w ∈ (renderKidsIdx cfg md5f reg depth isDef spec nodePath tmpl [] i).writes,
          IsIconWrite cfg md5f w) ∧
      (∀ reg depth tmpl,
        ∀ w ∈ (refKids cfg md5f reg depth tmpl []).writes, IsIconWrite cfg md5f w) := by
    constructor
    · intro reg depth isDef spec nodePath tmpl i w hw
      simp [renderKidsIdx, roEmpty] at hw
    · intro reg depth tmpl w hw
      simp [refKids, roEmpty] at hw
  have hcons : ∀ x xs,
      (∀ reg depth isDef spec nodePath tmpl,
        ∀ w ∈ (astNodeToJsx cfg md5f reg depth isDef spec nodePath tmpl x).writes,
          IsIconWrite cfg md5f w) →
      ((∀ reg depth isDef spec nodePath tmpl i,
         ∀ w ∈ (renderKidsIdx cfg md5f reg depth isDef spec nodePath tmpl xs i).writes,
           IsIconWrite cfg md5f w) ∧
       (∀ reg depth tmpl,
         ∀ w ∈ (refKids cfg md5f reg depth tmpl xs).writes, IsIconWrite cfg md5f w)) →
      ((∀ reg depth isDef spec nodePath tmpl i,
         ∀ w ∈ (renderKidsIdx cfg md5f reg depth isDef spec nodePath tmpl (x :: xs) i).writes,
           IsIconWrite cfg md5f w) ∧
       (∀ reg depth tmpl,
         ∀ w ∈ (refKids cfg md5f reg depth tmpl (x :: xs)).writes, IsIconWrite cfg md5f w)) := by
    intro x xs ihx ihxs
    constructor
    · intro reg depth isDef spec nodePath tmpl i w hw
      rw [renderKidsIdx] at hw
      rcases List.mem_append.mp hw with h | h
      · exact ihx reg (depth + 1) isDef spec (nodePath ++ [.str "children", .num i]) tmpl w h
      · exact (ihxs.1 reg depth isDef spec nodePath tmpl (i + 1)) w h
    · intro reg depth tmpl w hw
      rw [refKids] at hw
      rcases List.mem_append.mp hw with h | h
      · exact ihx reg (depth + 1) false [] [] tmpl w h
      · exact (ihxs.2 reg depth tmpl) w h
  exact ⟨nodeIndN _ _ hmk hnil hcons, nodeIndL _ _ hmk hnil hcons⟩

theorem renderPageKids_writes_icon (cfg : Config) (md5f : String → String) (reg : Registry) :
    ∀ l : List Node, ∀ w ∈ (renderPageKids cfg md5f reg l).writes, IsIconWrite cfg md5f w := by
  intro l
  induction l with
  | nil => intro w hw; simp [renderPageKids, roEmpty] at hw
  | cons c cs ih =>
    intro w hw
    rw [renderPageKids] at hw
    rcases List.mem_append.mp hw with h | h
    · exact (render_writes_icon cfg md5f).1 c reg 0 false [] [] none w h
    · exact ih w h

theorem processCandidate_writes_icon (cfg : Config) (md5f : String → String)
    (st : ExtractSt) (cand : Candidate)
    (hst : ∀ w ∈ st.writes, IsIconWrite cfg md5f w) :
    ∀ w ∈ (processCandidate cfg md5f st cand).writes, IsIconWrite cfg md5f w := by
  intro w hw
  rw [processCandidate] at hw
  simp only at hw
  rcases List.mem_append.mp hw with h | h
  · exact hst w h
  · exact (render_writes_icon cfg md5f).1 cand.astNode st.reg 0 true cand.propsSpec []
      (some cand.astNode.id) w h

theorem extract_foldl_writes_icon (cfg : Config) (md5f : String → String) :
    ∀ (cands : List Candidate) (st : ExtractSt),
      (∀ w ∈ st.writes, IsIconWrite cfg md5f w) →
      ∀ w ∈ (cands.foldl (processCandidate cfg md5f) st).writes, IsIconWrite cfg md5f w := by
  intro cands
  induction cands with
  | nil => intro st hst; simpa using hst
  | cons cand rest ih =>
    intro st hst
    rw [List.foldl_cons]
    exact ih _ (processCandidate_writes_icon cfg md5f st cand hst)

theorem identifyComponents_writes_icon (cfg : Config) (md5f : String → String)
    (gs : GlobalState) (reg : Registry) (body : Node) :
    ∀ w ∈ (identifyComponents cfg md5f gs reg body).writes, IsIconWrite cfg md5f w := by
  rw [identifyComponents]
  exact extract_foldl_writes_icon cfg md5f _ _ (by simp)

theorem processAstWrites_icon (cfg : Config) (md5f : String → String)
    (gs : GlobalState) (body : Node) :
    ∀ w ∈ processAstWrites (processAst cfg md5f gs body), IsIconWrite cfg md5f w := by
  intro w hw
  rw [processAstWrites, processAst] at hw
  rcases List.mem_append.mp hw with h | h
  · exact identifyComponents_writes_icon cfg md5f gs [] body w h
  · exact renderPageKids_writes_icon cfg md5f _ _ w h

theorem runBatch_writes_icon (cfg : Config) (md5f : String → String) :
    ∀ (bodies : List Node) (gs : GlobalState),
      ∀ w ∈ runBatch cfg md5f gs bodies, IsIconWrite cfg md5f w := by
  intro bodies
  induction bodies with
  | nil => intro gs w hw; simp [runBatch] at hw
  | cons b bs ih =>
    intro gs w hw
    rw [runBatch] at hw
    rcases List.mem_append.mp hw with h | h
    · exact processAstWrites_icon cfg md5f gs b w h
    · exact ih _ w h

/-- Claim C1 as stated is false: the source keeps no deduplication set
and calls `fs.writeFile` once per icon *occurrence*.  A batch of one
page whose body holds two icon subtrees with identical serialized
content performs two external asset writes for that content (both to
the same content-addressed path), not exactly one. -/
theorem c1_counterexample :
    runBatch cfgC1 md5Stub gsEmpty [bodyC1] =
      [(svgDiskPathOf cfgC1 (svgFilenameOf md5Stub svgContentC1), svgContentC1),
       (svgDiskPathOf cfgC1 (svgFilenameOf md5Stub svgContentC1), svgContentC1)] ∧
    (runBatch cfgC1 md5Stub gsEmpty [bodyC1]).countP (fun w => w.2 == svgContentC1) = 2 := by
  exact ⟨by decide, by decide⟩

/-- Claim C1 amended: writes are not deduplicated by a set (one write
happens per icon rendering occurrence), but every asset write of a
batch run is content-addressed — its target path is determined by the
hash of its own content — so any two writes of identical serialized
icon content target the same file, and at most one distinct asset file
per unique icon content exists after the run. -/
theorem c1_icon_writes_content_addressed
    (cfg : Config) (md5f : String → String) (gs : GlobalState) (bodies : List Node)
    (w1 w2 : String × String)
    (h1 : w1 ∈ runBatch cfg md5f gs bodies) (h2 : w2 ∈ runBatch cfg md5f gs bodies)
    (hc : w1.2 = w2.2) :
    w1.1 = svgDiskPathOf cfg (svgFilenameOf md5f w1.2) ∧ w1.1 = w2.1 := by
  have e1 : IsIconWrite cfg md5f w1 := runBatch_writes_icon cfg md5f bodies gs w1 h1
  have e2 : IsIconWrite cfg md5f w2 := runBatch_writes_icon cfg md5f bodies gs w2 h2
  refine ⟨e1, ?_⟩
  rw [IsIconWrite] at e1 e2
  rw [e1, e2, hc]

/-- Witness for the amended C1 theorem: the two concrete identical
icons of `bodyC1` write to one and the same content-addressed path. -/
theorem c1_icon_writes_content_addressed_witness :
    ∃ w1 w2, w1 ∈ runBatch cfgC1 md5Stub gsEmpty [bodyC1] ∧
      w2 ∈ runBatch cfgC1 md5Stub gsEmpty [bodyC1] ∧ w1.2 = w2.2 ∧
      w1.1 = svgDiskPathOf cfgC1 (svgFilenameOf md5Stub w1.2) ∧ w1.1 = w2.1 := by
  refine ⟨(svgDiskPathOf cfgC1 (svgFilenameOf md5Stub svgContentC1), svgContentC1),
    (svgDiskPathOf cfgC1 (svgFilenameOf md5Stub svgContentC1), svgContentC1),
    ?_, ?_, rfl, ?_⟩
  · decide
  · decide
  · exact c1_icon_writes_content_addressed cfgC1 md5Stub gsEmpty [bodyC1] _ _
      (by decide) (by decide) rfl

/-! ## Claim C3: which paths the inference records -/

theorem strMem_iff (l : List String) (s : String) : strMem l s = true ↔ s ∈ l := by
  simp [strMem]

theorem mem_addUnique_self (l : List String) (s : String) : s ∈ addUnique l s := by
  rw [addUnique]
  split
  · exact (strMem_iff l s).mp (by assumption)
  · simp

theorem subset_addUnique (l : List String) (s : String) : l ⊆ addUnique l s := by
  rw [addUnique]
  split
  · exact fun x hx => hx
  · exact fun x hx => List.mem_append_left _ hx

theorem alGet_nil {α : Type} (q : String) : alGet ([] : List (String × α)) q = none := rfl

theorem alGet_cons {α : Type} (k : String) (e : α) (rest : List (String × α)) (q : String) :
    alGet ((k, e) :: rest) q = if k == q then some e else alGet rest q := by
  by_cases h : (k == q) = true
  · rw [alGet, List.find?_cons_of_pos _ (by simpa using h)]
    simp [h]
  · rw [alGet, List.find?_cons_of_neg _ (by simpa using h)]
    simp only [h, if_false]
    rfl

theorem beq_false_of_ne {a b : String} (h : a ≠ b) : (a == b) = false := by
  simpa using h

theorem dpAdd_get_self (ps : String) (ty : PType) (p : List PathElem) (v : String)
    (tv : Option String) :
    ∀ dp, ∃ e, alGet (dpAdd dp ps ty p v tv) ps = some e ∧ v ∈ e.values ∧
      (∀ x, tv = some x → x ∈ e.values) := by
  intro dp
  induction dp with
  | nil =>
    cases tv with
    | none =>
      refine ⟨⟨ty, addUnique [] v, p⟩, ?_, ?_, ?_⟩
      · simp [dpAdd, alGet_cons]
      · exact mem_addUnique_self [] v
      · simp
    | some x =>
      refine ⟨⟨ty, addUnique (addUnique [] v) x, p⟩, ?_, ?_, ?_⟩
      · simp [dpAdd, alGet_cons]
      · exact subset_addUnique (addUnique [] v) x (mem_addUnique_self [] v)
      · intro y hy
        cases hy
        exact mem_addUnique_self (addUnique [] v) x
  | cons kv rest ih =>
    obtain ⟨k, e0⟩ := kv
    rw [dpAdd]
    by_cases hk : k = ps
    · subst hk
      rw [if_pos (by simp)]
      cases tv with
      | none =>
        refine ⟨⟨e0.ptype, addUnique e0.values v, e0.pathArray⟩, ?_, ?_, ?_⟩
        · simp [alGet_cons]
        · exact mem_addUnique_self e0.values v
        · simp
      | some x =>
        refine ⟨⟨e0.ptype, addUnique (addUnique e0.values v) x, e0.pathArray⟩, ?_, ?_, ?_⟩
        · simp [alGet_cons]
        · exact subset_addUnique (addUnique e0.values v) x (mem_addUnique_self e0.values v)
        · intro y hy
          cases hy
          exact mem_addUnique_self (addUnique e0.values v) x
    · obtain ⟨e, he, hv, htv⟩ := ih
      rw [if_neg (by simpa using hk)]
      refine ⟨e, ?_, hv, htv⟩
      rw [alGet_cons, if_neg (by simp [beq_false_of_ne hk])]
      exact he

theorem dpAdd_get_other (ps ps' : String) (ty : PType) (p : List PathElem) (v : String)
    (tv : Option String) (hne : ps' ≠ ps) :
    ∀ dp, alGet (dpAdd dp ps ty p v tv) ps' = alGet dp ps' := by
  have hb : (ps == ps') = false := beq_false_of_ne (fun h => hne h.symm)
  intro dp
  induction dp with
  | nil => simp [dpAdd, alGet_cons, hb, alGet_nil]
  | cons kv rest ih =>
    obtain ⟨k, e0⟩ := kv
    rw [dpAdd]
    by_cases hk : k = ps
    · subst hk
      rw [if_pos (by simp)]
      simp [alGet_cons, hb]
    · rw [if_neg (by simpa using hk)]
      rw [alGet_cons, alGet_cons, ih]

theorem dpAdd_get_mono (ps ps' : String) (ty : PType) (p : List PathElem) (v : String)
    (tv : Option String) (dp : List (String × DiffEntry)) (e : DiffEntry)
    (h : alGet dp ps' = some e) :
    ∃ e', alGet (dpAdd dp ps ty p v tv) ps' = some e' ∧ e.values ⊆ e'.values := by
  by_cases hne : ps' = ps
  · subst hne
    revert h
    induction dp with
    | nil =>
      intro h
      simp [alGet_nil] at h
    | cons kv rest ih =>
      obtain ⟨k, e0⟩ := kv
      intro h
      rw [alGet_cons] at h
      rw [dpAdd]
      by_cases hk : k = ps'
      · subst hk
        rw [if_pos (by simp)] at h
        rw [if_pos (by simp)]
        cases h
        cases tv with
        | none =>
          refine ⟨⟨e.ptype, addUnique e.values v, e.pathArray⟩, ?_, ?_⟩
          · rw [alGet_cons, if_pos (by simp)]
          · exact subset_addUnique e.values v
        | some x =>
          refine ⟨⟨e.ptype, addUnique (addUnique e.values v) x, e.pathArray⟩, ?_, ?_⟩
          · rw [alGet_cons, if_pos (by simp)]
          · exact fun y hy => subset_addUnique _ x (subset_addUnique e.values v hy)
      · rw [if_neg (by simp [beq_false_of_ne hk])] at h
        rw [if_neg (by simpa using hk)]
        obtain ⟨e', he', hsub⟩ := ih h
        refine ⟨e', ?_, hsub⟩
        rw [alGet_cons, if_neg (by simp [beq_false_of_ne hk])]
        exact he'
  · exact ⟨e, by rw [dpAdd_get_other ps ps' ty p v tv hne dp]; exact h, fun x hx => hx⟩

theorem diffInnerStep_eq_none (tm : List (String × (String × PType)))
    (dp : List (String × DiffEntry)) (ent : List PathElem × String × PType)
    (hm : alGet tm (pathToString ent.1) = none) :
    diffInnerStep tm dp ent = dpAdd dp (pathToString ent.1) ent.2.2 ent.1 ent.2.1 none := by
  rw [diffInnerStep, hm]

theorem diffInnerStep_eq_some (tm : List (String × (String × PType)))
    (dp : List (String × DiffEntry)) (ent : List PathElem × String × PType)
    (info : String × PType) (hm : alGet tm (pathToString ent.1) = some info) :
    diffInnerStep tm dp ent =
      if ent.2.1 ≠ info.1 then
        dpAdd dp (pathToString ent.1) ent.2.2 ent.1 ent.2.1 (some info.1)
      else dp := by
  obtain ⟨tv0, ty0⟩ := info
  rw [diffInnerStep, hm]

theorem diffInnerStep_mono (tm : List (String × (String × PType)))
    (dp : List (String × DiffEntry)) (ent : List PathElem × String × PType)
    (ps' : String) (e : DiffEntry) (h : alGet dp ps' = some e) :
    ∃ e', alGet (diffInnerStep tm dp ent) ps' = some e' ∧ e.values ⊆ e'.values := by
  cases hm : alGet tm (pathToString ent.1) with
  | none =>
    rw [diffInnerStep_eq_none tm dp ent hm]
    exact dpAdd_get_mono _ _ _ _ _ _ dp e h
  | some info =>
    rw [diffInnerStep_eq_some tm dp ent info hm]
    by_cases hc : ent.2.1 ≠ info.1
    · rw [if_pos hc]
      exact dpAdd_get_mono _ _ _ _ _ _ dp e h
    · rw [if_neg hc]
      exact ⟨e, h, fun x hx => hx⟩

theorem diffInnerFold_mono (tm : List (String × (String × PType))) :
    ∀ (ents : List (List PathElem × String × PType)) (dp : List (String × DiffEntry))
      (ps' : String) (e : DiffEntry), alGet dp ps' = some e →
      ∃ e', alGet (ents.foldl (diffInnerStep tm) dp) ps' = some e' ∧ e.values ⊆ e'.values := by
  intro ents
  induction ents with
  | nil => exact fun dp ps' e h => ⟨e, h, fun x hx => hx⟩
  | cons ent rest ih =>
    intro dp ps' e h
    rw [List.foldl_cons]
    obtain ⟨e1, h1, hsub1⟩ := diffInnerStep_mono tm dp ent ps' e h
    obtain ⟨e2, h2, hsub2⟩ := ih _ ps' e1 h1
    exact ⟨e2, h2, fun x hx => hsub2 (hsub1 hx)⟩

theorem diffOuterFold_mono (t : Node) (tm : List (String × (String × PType))) :
    ∀ (insts : List Node) (dp : List (String × DiffEntry)) (ps' : String) (e : DiffEntry),
      alGet dp ps' = some e →
      ∃ e', alGet (insts.foldl (diffOuterStep t tm) dp) ps' = some e' ∧ e.values ⊆ e'.values := by
  intro insts
  induction insts with
  | nil => exact fun dp ps' e h => ⟨e, h, fun x hx => hx⟩
  | cons inst rest ih =>
    intro dp ps' e h
    rw [List.foldl_cons, diffOuterStep]
    split
    · exact ih dp ps' e h
    · obtain ⟨e1, h1, hsub1⟩ := diffInnerFold_mono tm _ dp ps' e h
      obtain ⟨e2, h2, hsub2⟩ := ih _ ps' e1 h1
      exact ⟨e2, h2, fun x hx => hsub2 (hsub1 hx)⟩

theorem diffInnerStep_hits (t : Node) (dp : List (String × DiffEntry))
    (ent : List PathElem × String × PType) (hdis : templateDisagrees t ent.1 ent.2.1 = true) :
    ∃ e, alGet (diffInnerStep (templateMapOf t) dp ent) (pathToString ent.1) = some e ∧
      ent.2.1 ∈ e.values ∧
      (∀ info, alGet (templateMapOf t) (pathToString ent.1) = some info → info.1 ∈ e.values) := by
  rw [templateDisagrees] at hdis
  cases hm : alGet (templateMapOf t) (pathToString ent.1) with
  | none =>
    rw [diffInnerStep_eq_none (templateMapOf t) dp ent hm]
    obtain ⟨e, he, hv, -⟩ := dpAdd_get_self (pathToString ent.1) ent.2.2 ent.1 ent.2.1 none dp
    exact ⟨e, he, hv, fun info hinfo => Option.noConfusion hinfo⟩
  | some info =>
    rw [hm] at hdis
    rw [diffInnerStep_eq_some (templateMapOf t) dp ent info hm]
    rw [if_pos (of_decide_eq_true hdis)]
    obtain ⟨e, he, hv, htv⟩ :=
      dpAdd_get_self (pathToString ent.1) ent.2.2 ent.1 ent.2.1 (some info.1) dp
    refine ⟨e, he, hv, ?_⟩
    intro info2 hinfo2
    cases hinfo2
    exact htv info.1 rfl

theorem diffInnerFold_hits (t : Node) :
    ∀ (ents : List (List PathElem × String × PType)) (dp : List (String × DiffEntry))
      (ent : List PathElem × String × PType), ent ∈ ents →
      templateDisagrees t ent.1 ent.2.1 = true →
      ∃ e, alGet (ents.foldl (diffInnerStep (templateMapOf t)) dp) (pathToString ent.1) =
          some e ∧ ent.2.1 ∈ e.values ∧
        (∀ info, alGet (templateMapOf t) (pathToString ent.1) = some info →
          info.1 ∈ e.values) := by
  intro ents
  induction ents with
  | nil => intro dp ent h; simp at h
  | cons ent0 rest ih =>
    intro dp ent hmem hdis
    rw [List.foldl_cons]
    rcases List.mem_cons.mp hmem with rfl | hmem'
    · obtain ⟨e, he, hv, htv⟩ := diffInnerStep_hits t dp ent hdis
      obtain ⟨e', he', hsub⟩ := diffInnerFold_mono (templateMapOf t) rest _ _ e he
      exact ⟨e', he', hsub hv, fun info hinfo => hsub (htv info hinfo)⟩
    · exact ih _ ent hmem' hdis

theorem diffOuterFold_hits (t : Node) :
    ∀ (insts : List Node) (dp : List (String × DiffEntry)) (inst : Node), inst ∈ insts →
      inst.id ≠ t.id →
      ∀ ent ∈ collectPathsN inst [], templateDisagrees t ent.1 ent.2.1 = true →
      ∃ e, alGet (insts.foldl (diffOuterStep t (templateMapOf t)) dp) (pathToString ent.1) =
          some e ∧ ent.2.1 ∈ e.values ∧
        (∀ info, alGet (templateMapOf t) (pathToString ent.1) = some info →
          info.1 ∈ e.values) := by
  intro insts
  induction insts with
  | nil => intro dp inst h; simp at h
  | cons inst0 rest ih =>
    intro dp inst hmem hid ent hent hdis
    rw [List.foldl_cons]
    rcases List.mem_cons.mp hmem with rfl | hmem'
    · rw [diffOuterStep, if_neg (by simpa using hid)]
      obtain ⟨e, he, hv, htv⟩ := diffInnerFold_hits t (collectPathsN inst []) dp ent hent hdis
      obtain ⟨e', he', hsub⟩ := diffOuterFold_mono t (templateMapOf t) rest _ _ e he
      exact ⟨e', he', hsub hv, fun info hinfo => hsub (htv info hinfo)⟩
    · exact ih _ inst hmem' hid ent hent hdis

theorem dpAdd_nil (ps0 : String) (ty : PType) (p : List PathElem) (v : String)
    (tv : Option String) : ∃ e1, dpAdd [] ps0 ty p v tv = [(ps0, e1)] := by
  cases tv <;> exact ⟨_, rfl⟩

theorem dpAdd_cons_pos (k : String) (e0 : DiffEntry) (rest : List (String × DiffEntry))
    (ps0 : String) (ty : PType) (p : List PathElem) (v : String) (tv : Option String)
    (hk : (k == ps0) = true) :
    ∃ e1, dpAdd ((k, e0) :: rest) ps0 ty p v tv = (k, e1) :: rest := by
  cases tv <;> exact ⟨_, by rw [dpAdd, if_pos hk]⟩

theorem dpAdd_cons_neg (k : String) (e0 : DiffEntry) (rest : List (String × DiffEntry))
    (ps0 : String) (ty : PType) (p : List PathElem) (v : String) (tv : Option String)
    (hk : (k == ps0) = false) :
    dpAdd ((k, e0) :: rest) ps0 ty p v tv = (k, e0) :: dpAdd rest ps0 ty p v tv := by
  cases tv <;> rw [dpAdd, if_neg (by simp [hk])]

theorem dpAdd_keys (ps0 ps : String) (ty : PType) (p : List PathElem) (v : String)
    (tv : Option String) :
    ∀ (dp : List (String × DiffEntry)) (e : DiffEntry),
      alGet (dpAdd dp ps0 ty p v tv) ps = some e →
      ps = ps0 ∨ ∃ e0, alGet dp ps = some e0 := by
  intro dp
  induction dp with
  | nil =>
    intro e h
    obtain ⟨e1, hsh⟩ := dpAdd_nil ps0 ty p v tv
    rw [hsh, alGet_cons] at h
    by_cases hk : ps0 = ps
    · exact Or.inl hk.symm
    · rw [if_neg (by simp [beq_false_of_ne hk])] at h
      simp [alGet_nil] at h
  | cons kv rest ih =>
    obtain ⟨k, e0⟩ := kv
    intro e h
    by_cases hk : k = ps0
    · obtain ⟨e1, hsh⟩ := dpAdd_cons_pos k e0 rest ps0 ty p v tv (by simp [hk])
      rw [hsh, alGet_cons] at h
      by_cases hk2 : k = ps
      · exact Or.inl (hk2.symm.trans hk)
      · rw [if_neg (by simp [beq_false_of_ne hk2])] at h
        exact Or.inr ⟨e, by rw [alGet_cons, if_neg (by simp [beq_false_of_ne hk2])]; exact h⟩
    · rw [dpAdd_cons_neg k e0 rest ps0 ty p v tv (by simp [beq_false_of_ne hk]),
        alGet_cons] at h
      by_cases hk2 : k = ps
      · exact Or.inr ⟨e0, by rw [alGet_cons, if_pos (by simp [hk2])]⟩
      · rw [if_neg (by simp [beq_false_of_ne hk2])] at h
        rcases ih e h with h1 | ⟨e1, h1⟩
        · exact Or.inl h1
        · exact Or.inr ⟨e1, by
            rw [alGet_cons, if_neg (by simp [beq_false_of_ne hk2])]
            exact h1⟩

theorem diffInnerStep_keys (tm : List (String × (String × PType)))
    (dp : List (String × DiffEntry)) (ent : List PathElem × String × PType)
    (ps : String) (e : DiffEntry) (h : alGet (diffInnerStep tm dp ent) ps = some e) :
    ps = pathToString ent.1 ∨ ∃ e0, alGet dp ps = some e0 := by
  cases hm : alGet tm (pathToString ent.1) with
  | none =>
    rw [diffInnerStep_eq_none tm dp ent hm] at h
    exact dpAdd_keys _ _ _ _ _ _ dp e h
  | some info =>
    rw [diffInnerStep_eq_some tm dp ent info hm] at h
    by_cases hc : ent.2.1 ≠ info.1
    · rw [if_pos hc] at h
      exact dpAdd_keys _ _ _ _ _ _ dp e h
    · rw [if_neg hc] at h
      exact Or.inr ⟨e, h⟩

theorem diffInnerFold_keys (tm : List (String × (String × PType))) :
    ∀ (ents : List (List PathElem × String × PType)) (dp : List (String × DiffEntry))
      (ps : String) (e : DiffEntry),
      alGet (ents.foldl (diffInnerStep tm) dp) ps = some e →
      (∃ ent ∈ ents, ps = pathToString ent.1) ∨ ∃ e0, alGet dp ps = some e0 := by
  intro ents
  induction ents with
  | nil => exact fun dp ps e h => Or.inr ⟨e, h⟩
  | cons ent rest ih =>
    intro dp ps e h
    rw [List.foldl_cons] at h
    rcases ih _ ps e h with ⟨ent', hent', hps⟩ | ⟨e0, h0⟩
    · exact Or.inl ⟨ent', List.mem_cons_of_mem _ hent', hps⟩
    · rcases diffInnerStep_keys tm dp ent ps e0 h0 with hps | he
      · exact Or.inl ⟨ent, List.mem_cons_self _ _, hps⟩
      · exact Or.inr he

theorem diffOuterFold_keys (t : Node) (tm : List (String × (String × PType))) :
    ∀ (insts : List Node) (dp : List (String × DiffEntry)) (ps : String) (e : DiffEntry),
      alGet (insts.foldl (diffOuterStep t tm) dp) ps = some e →
      (∃ inst ∈ insts, inst.id ≠ t.id ∧ ∃ ent ∈ collectPathsN inst [],
        ps = pathToString ent.1) ∨
      ∃ e0, alGet dp ps = some e0 := by
  intro insts
  induction insts with
  | nil => exact fun dp ps e h => Or.inr ⟨e, h⟩
  | cons inst rest ih =>
    intro dp ps e h
    rw [List.foldl_cons] at h
    rcases ih _ ps e h with ⟨inst', hmem, hid, hent⟩ | ⟨e0, h0⟩
    · exact Or.inl ⟨inst', List.mem_cons_of_mem _ hmem, hid, hent⟩
    · rw [diffOuterStep] at h0
      split at h0
      · exact Or.inr ⟨e0, h0⟩
      · rcases diffInnerFold_keys tm _ dp ps e0 h0 with ⟨ent, hent, hps⟩ | he
        · refine Or.inl ⟨inst, List.mem_cons_self _ _, ?_, ent, hent, hps⟩
          intro hid
          simp_all
        · exact Or.inr he

/-- Claim C3 as stated is false: the template enumerates the attribute
path `attribs.a` with value `"x"`, the instance's enumeration is empty
(the path's value is missing on the instance side), yet the inference
records no differing path at all — the spec comes out empty. -/
theorem c3_counterexample :
    collectPathsN tmplC3 [] = [([.str "attribs", .str "a"], "x", PType.attr)] ∧
    collectPathsN instC3 [] = [] ∧
    tmplC3.id ≠ instC3.id ∧
    analyzeInstancesForProps tmplC3 [tmplC3, instC3] = [] := by
  exact ⟨by decide, by decide, by decide, by decide⟩

/-- Claim C3 amended: the `differingPaths` map records exactly the
paths enumerated by some non-template instance; every instance
enumeration entry whose value differs from the template's or whose
path the template lacks is recorded, carrying that instance value and
(when the template has the path) the template's value; and every
recorded path stems from a non-template instance's enumeration — in
particular, paths enumerated only by the template (values missing on
an instance's side) are never recorded. -/
theorem c3_differing_paths_characterization :
    (∀ (t : Node) (instances : List Node) (inst : Node)
       (ent : List PathElem × String × PType),
      inst ∈ instances → inst.id ≠ t.id → ent ∈ collectPathsN inst [] →
      templateDisagrees t ent.1 ent.2.1 = true →
      ∃ e, alGet (differingPathsOf t instances) (pathToString ent.1) = some e ∧
        ent.2.1 ∈ e.values ∧
        (∀ info, alGet (templateMapOf t) (pathToString ent.1) = some info →
          info.1 ∈ e.values)) ∧
    (∀ (t : Node) (instances : List Node) (ps : String) (e : DiffEntry),
      alGet (differingPathsOf t instances) ps = some e →
      ∃ inst ∈ instances, inst.id ≠ t.id ∧
        ∃ ent ∈ collectPathsN inst [], ps = pathToString ent.1) := by
  constructor
  · intro t instances inst ent hmem hid hent hdis
    rw [differingPathsOf]
    exact diffOuterFold_hits t instances [] inst hmem hid ent hent hdis
  · intro t instances ps e h
    rw [differingPathsOf] at h
    rcases diffOuterFold_keys t (templateMapOf t) instances [] ps e h with hfound | ⟨e0, h0⟩
    · exact hfound
    · simp [alGet] at h0

/-- Witness for the amended C3 theorem on the Scenario-1 instances:
the differing `href` attribute of the second `li` is recorded with
both observed values, and the recorded path stems from a non-template
instance. -/
theorem c3_differing_paths_characterization_witness :
    (∃ e, alGet (differingPathsOf liC3a [liC3a, liC3b])
        (pathToString [.str "children", .num 0, .str "attribs", .str "href"]) = some e ∧
      "/about" ∈ e.values ∧
      (∀ info, alGet (templateMapOf liC3a)
          (pathToString [.str "children", .num 0, .str "attribs", .str "href"]) = some info →
        info.1 ∈ e.values)) ∧
    (∃ inst ∈ [liC3a, liC3b], inst.id ≠ liC3a.id ∧
      ∃ ent ∈ collectPathsN inst [],
        "children.0.attribs.href" = pathToString ent.1) := by
  constructor
  · exact c3_differing_paths_characterization.1 liC3a [liC3a, liC3b] liC3b
      ([.str "children", .num 0, .str "attribs", .str "href"], "/about", PType.attr)
      (List.mem_cons_of_mem _ (List.mem_cons_self _ _)) (by decide)
      (by rw [show collectPathsN liC3b [] =
        [([.str "children", .num 0, .str "attribs", .str "href"], "/about", PType.attr)]
        from rfl]
          exact List.mem_cons_self _ _)
      (by decide)
  · exact c3_differing_paths_characterization.2 liC3a [liC3a, liC3b]
      "children.0.attribs.href"
      ⟨PType.attr, ["/about", "/home"],
        [.str "children", .num 0, .str "attribs", .str "href"]⟩
      (by decide)



/-! ## Claim C9: prop-name uniqueness and incrementing-suffix disambiguation

The counter interpolation in the JS template literal renders the counter in
decimal; we recover injectivity of that rendering by decoding it back with
`decVal`. -/

theorem digitChar_val (m : Nat) (h : m < 10) : (Nat.digitChar m).toNat - 48 = m := by
  interval_cases m <;> decide

theorem toDigitsCore_acc (fuel : Nat) :
    ∀ (n : Nat) (ds : List Char),
      Nat.toDigitsCore 10 fuel n ds = Nat.toDigitsCore 10 fuel n [] ++ ds := by
  induction fuel with
  | zero => intro n ds; simp [Nat.toDigitsCore]
  | succ fuel ih =>
    intro n ds
    simp only [Nat.toDigitsCore]
    by_cases h : n / 10 = 0
    · simp [h]
    · simp only [h, if_false]
      rw [ih (n / 10) (Nat.digitChar (n % 10) :: ds), ih (n / 10) [Nat.digitChar (n % 10)]]
      simp

theorem decVal_foldl_init (l : List Char) :
    ∀ (i : Nat), l.foldl (fun a c => a * 10 + decDigit c) i =
      i * 10 ^ l.length + decVal l := by
  induction l with
  | nil => intro i; simp [decVal]
  | cons c l ih =>
    intro i
    simp only [List.foldl_cons, List.length_cons, decVal]
    rw [ih (i * 10 + decDigit c), ih (0 * 10 + decDigit c)]
    ring

theorem decVal_append (a b : List Char) :
    decVal (a ++ b) = decVal a * 10 ^ b.length + decVal b := by
  rw [decVal, List.foldl_append, decVal_foldl_init]
  rfl

theorem decVal_toDigitsCore (fuel : Nat) :
    ∀ (n : Nat), n < fuel → decVal (Nat.toDigitsCore 10 fuel n []) = n := by
  induction fuel with
  | zero => intro n h; omega
  | succ fuel ih =>
    intro n h
    simp only [Nat.toDigitsCore]
    by_cases h0 : n / 10 = 0
    · simp only [h0, if_true]
      have hn : n < 10 := by omega
      have hv := digitChar_val (n % 10) (by omega)
      simp only [decVal, List.foldl_cons, List.foldl_nil, decDigit]
      omega
    · simp only [h0, if_false]
      rw [toDigitsCore_acc fuel (n / 10) [Nat.digitChar (n % 10)]]
      rw [decVal_append]
      have hlt : n / 10 < fuel := by
        have h10 : 10 ≤ n := by
          by_contra hc
          exact h0 (Nat.div_eq_of_lt (by omega))
        have := Nat.div_lt_self (by omega : 0 < n) (by omega : 1 < 10)
        omega
      rw [ih (n / 10) hlt]
      have hone : decVal [Nat.digitChar (n % 10)] = n % 10 := by
        have hv := digitChar_val (n % 10) (by omega)
        simp [decVal, decDigit, hv]
      rw [hone]
      simp
      omega

theorem decVal_repr (n : Nat) : decVal (Nat.repr n).data = n := by
  show decVal (Nat.toDigits 10 n).asString.data = n
  rw [show (Nat.toDigits 10 n).asString.data = Nat.toDigits 10 n from rfl]
  exact decVal_toDigitsCore (n + 1) n (Nat.lt_succ_self n)

theorem natRepr_inj {n m : Nat} (h : Nat.repr n = Nat.repr m) : n = m := by
  have h2 := congrArg (fun s => decVal (String.data s)) h
  simpa [decVal_repr] using h2

/-- `genAux` returns the candidate at the first free counter value at or
after `count`, provided some counter in range is free. -/
theorem genAux_first_free (base : String) (existing : List String) :
    ∀ (fuel count : Nat),
      (∃ i, count ≤ i ∧ i < count + fuel ∧ strMem existing (base ++ Nat.repr i) = false) →
      ∃ m, count ≤ m ∧ strMem existing (base ++ Nat.repr m) = false ∧
        (∀ j, count ≤ j → j < m → strMem existing (base ++ Nat.repr j) = true) ∧
        genAux base existing fuel count = base ++ Nat.repr m := by
  intro fuel
  induction fuel with
  | zero =>
    intro count h
    obtain ⟨i, h1, h2, _⟩ := h
    omega
  | succ fuel ih =>
    intro count h
    by_cases hc : strMem existing (base ++ Nat.repr count) = true
    · obtain ⟨i, h1, h2, h3⟩ := h
      have hi : count + 1 ≤ i := by
        rcases Nat.eq_or_lt_of_le h1 with rfl | hlt
        · rw [hc] at h3; cases h3
        · omega
      obtain ⟨m, hm1, hm2, hm3, hm4⟩ := ih (count + 1) ⟨i, hi, by omega, h3⟩
      refine ⟨m, by omega, hm2, ?_, ?_⟩
      · intro j hj1 hj2
        rcases Nat.eq_or_lt_of_le hj1 with rfl | hlt
        · exact hc
        · exact hm3 j hlt hj2
      · simp only [genAux, hc, if_true]
        exact hm4
    · have hc2 : strMem existing (base ++ Nat.repr count) = false := by
        simpa using hc
      refine ⟨count, le_refl _, hc2, fun j hj1 hj2 => absurd hj1 (by omega), ?_⟩
      simp only [genAux, hc2]
      simp

/-- Pigeonhole: among `existing.length + 1` distinct numbered candidates at
least one is not in `existing`. -/
theorem exists_free_index (base : String) (existing : List String) :
    ∃ i, 1 ≤ i ∧ i < 1 + (existing.length + 1) ∧
      strMem existing (base ++ Nat.repr i) = false := by
  by_contra hcon
  push_neg at hcon
  have hall : ∀ i, 1 ≤ i → i < existing.length + 2 →
      (base ++ Nat.repr i) ∈ existing := by
    intro i h1 h2
    have h3 := hcon i h1 (by omega)
    have h4 : strMem existing (base ++ Nat.repr i) = true := by
      cases h5 : strMem existing (base ++ Nat.repr i)
      · exact absurd h5 h3
      · rfl
    exact (strMem_iff _ _).mp h4
  have hsub : ((List.range (existing.length + 1)).map
      (fun j => base ++ Nat.repr (j + 1))) ⊆ existing := by
    intro x hx
    simp only [List.mem_map, List.mem_range] at hx
    obtain ⟨j, hj, rfl⟩ := hx
    exact hall (j + 1) (by omega) (by omega)
  have hnd : ((List.range (existing.length + 1)).map
      (fun j => base ++ Nat.repr (j + 1))).Nodup := by
    refine List.Nodup.map ?_ (List.nodup_range _)
    intro a b hab
    have h2 := natRepr_inj (strAppend_left_cancel hab)
    omega
  have hsp := (List.Nodup.subperm hnd hsub).length_le
  simp only [List.length_map, List.length_range] at hsp
  omega

/-- Full characterization of `generatePropName`: the base name if it is
free, else the base suffixed with the least free counter value from 1 up. -/
theorem generatePropName_spec (base : String) (existing : List String) :
    (strMem existing base = false ∧ generatePropName base existing = base) ∨
    (strMem existing base = true ∧
      ∃ m, 1 ≤ m ∧ strMem existing (base ++ Nat.repr m) = false ∧
        (∀ j, 1 ≤ j → j < m → strMem existing (base ++ Nat.repr j) = true) ∧
        generatePropName base existing = base ++ Nat.repr m) := by
  by_cases hb : strMem existing base = true
  · right
    refine ⟨hb, ?_⟩
    obtain ⟨m, h1, h2, h3, h4⟩ := genAux_first_free base existing (existing.length + 1) 1
      (exists_free_index base existing)
    exact ⟨m, h1, h2, h3, by rw [generatePropName, if_pos hb]; exact h4⟩
  · left
    have hb2 : strMem existing base = false := by simpa using hb
    exact ⟨hb2, by rw [generatePropName, if_neg (by simp [hb2])]⟩

theorem generatePropName_not_mem (base : String) (existing : List String) :
    strMem existing (generatePropName base existing) = false := by
  rcases generatePropName_spec base existing with ⟨h1, h2⟩ | ⟨h1, m, hm1, hm2, hm3, hm4⟩
  · rw [h2]; exact h1
  · rw [hm4]; exact hm2

/-- The `buildPropsSpec` reducer keeps the `propNames` accumulator equal to
the name column of the spec and duplicate-free. -/
theorem bps_foldl_inv (t : Node) :
    ∀ (dp : List (String × DiffEntry))
      (st : Nat × List String × List (String × PropSpecEntry)),
      st.2.1 = st.2.2.map (fun kv => kv.1) → st.2.1.Nodup →
      (dp.foldl (bpsStep t) st).2.1 =
          (dp.foldl (bpsStep t) st).2.2.map (fun kv => kv.1) ∧
        (dp.foldl (bpsStep t) st).2.1.Nodup := by
  intro dp
  induction dp with
  | nil => exact fun st h1 h2 => ⟨h1, h2⟩
  | cons kv rest ih =>
    intro st h1 h2
    rw [List.foldl_cons]
    refine ih (bpsStep t st kv) ?_ ?_
    · simp [bpsStep, h1]
    · simp only [bpsStep]
      refine List.nodup_append.mpr ⟨h2, List.nodup_singleton _, ?_⟩
      intro a ha hb
      simp only [List.mem_singleton] at hb
      subst hb
      have hfree := generatePropName_not_mem (basePropNameOf t kv.2 st.1).1 st.2.1
      have hm : strMem st.2.1 (generatePropName (basePropNameOf t kv.2 st.1).1 st.2.1)
          = true := (strMem_iff _ _).mpr ha
      rw [hfree] at hm
      cases hm

theorem buildPropsSpec_names_nodup (t : Node) (dp : List (String × DiffEntry)) :
    ((buildPropsSpec t dp).map (fun kv => kv.1)).Nodup := by
  have h := bps_foldl_inv t dp (0, [], []) rfl List.nodup_nil
  rw [buildPropsSpec]
  exact h.1 ▸ h.2

theorem analyze_names_nodup (t : Node) (instances : List Node) :
    ((analyzeInstancesForProps t instances).map (fun kv => kv.1)).Nodup := by
  simp only [analyzeInstancesForProps]
  split
  · simp only [List.map_append, List.map_cons, List.map_nil]
    refine List.nodup_append.mpr
      ⟨buildPropsSpec_names_nodup t _, List.nodup_singleton _, ?_⟩
    intro a ha hb
    simp only [List.mem_singleton] at hb
    subst hb
    have hfree := generatePropName_not_mem "children"
      ((buildPropsSpec t (differingPathsOf t instances)).map (fun kv => kv.1))
    have hm : strMem ((buildPropsSpec t (differingPathsOf t instances)).map
        (fun kv => kv.1)) (generatePropName "children"
        ((buildPropsSpec t (differingPathsOf t instances)).map (fun kv => kv.1)))
        = true := (strMem_iff _ _).mpr ha
    rw [hfree] at hm
    cases hm
  · exact buildPropsSpec_names_nodup t _

/-- Claim C9: every inferred prop spec has pairwise-distinct prop names,
and a clashing base name is disambiguated by appending the least counter
value (starting at 1 and incremented past every taken candidate) whose
suffixed name is free. -/
theorem c9_prop_names_unique :
    (∀ (t : Node) (instances : List Node),
      ((analyzeInstancesForProps t instances).map (fun kv => kv.1)).Nodup) ∧
    (∀ (base : String) (existing : List String),
      (strMem existing base = false ∧ generatePropName base existing = base) ∨
      (strMem existing base = true ∧
        ∃ m, 1 ≤ m ∧ strMem existing (base ++ Nat.repr m) = false ∧
          (∀ j, 1 ≤ j → j < m → strMem existing (base ++ Nat.repr j) = true) ∧
          generatePropName base existing = base ++ Nat.repr m)) :=
  ⟨analyze_names_nodup, generatePropName_spec⟩

/-- Closed instance of C9: with `href` and `href1` taken, the generator
lands on the suffixed name `href2`. -/
theorem c9_prop_names_unique_witness :
    ((analyzeInstancesForProps (elemN 1 "div" [] []) []).map (fun kv => kv.1)).Nodup ∧
    generatePropName "href" ["href", "href1"] = "href2" := by
  refine ⟨c9_prop_names_unique.1 (elemN 1 "div" [] []) [], ?_⟩
  rcases c9_prop_names_unique.2 "href" ["href", "href1"] with
    ⟨h1, h2⟩ | ⟨h1, m, hm1, hm2, hm3, hm4⟩
  · exact absurd h1 (by decide)
  · have hmv : m = 2 := by
      by_contra hne
      rcases Nat.lt_or_ge m 2 with hlt | hge
      · have hm1e : m = 1 := by omega
        subst hm1e
        rw [show ("href" ++ Nat.repr 1 : String) = "href1" from rfl] at hm2
        exact absurd hm2 (by decide)
      · have h2f := hm3 2 (by omega) (by omega)
        rw [show ("href" ++ Nat.repr 2 : String) = "href2" from rfl] at h2f
        exact absurd h2f (by decide)
    subst hmv
    rw [show ("href" ++ Nat.repr 2 : String) = "href2" from rfl] at hm4
    exact hm4

end W2R
